import Mathlib

/-!
# Looney Race — shallow embedding and verification

This file embeds the core simulation of `looney_race.cpp` (a 5x5 grid race
between four characters B, D, T, M) and proves properties of it.

Modelling decisions:
* The board `char board[SIZE][SIZE]` is modelled as a total function
  `Int → Int → Char`.  The C program only ever reads cells inside
  `[0,5) × [0,5)`; the single out-of-range write that `move_mountain` can
  perform (`board[-1][-1] = '.'` when no `'F'` is on the board) is
  representable at the index `(-1, -1)`.
* `rand() % SIZE` draws are modelled as explicit lists of `Fin 5` values
  (the modulus guarantees the range).  A rejection-sampling loop
  (`do { .. } while (board[x][y] != '.')`) becomes `List.find?` over the
  list of draws; an empty result models the (never exercised) case where
  the C loop would not terminate.
* One iteration of the body of `character_thread` — the critical section
  between `pthread_mutex_lock` and `pthread_mutex_unlock`, together with
  the liveness/game-over re-check — is the transition function `step`.
  Since all shared state is accessed under the single global mutex, a
  whole run is a sequence of such atomic steps (`Reachable`).
* The `printf` announcements (carrot picked up / stolen / placed, player
  eliminated, winner declared, mountain moved) are modelled as an append
  only `log : List Event`, so that "X is announced" is observable.
-/

/-- The announcements printed by the program, in print order. -/
inductive Event where
  | stole (victim : Char)
  | eliminated (victim : Char) (x y : Int)
  | pickedUp (who : Char) (x y : Int)
  | placedCarrot (who : Char) (total : Nat)
  | wins (who : Char)
  | maxStepsWinner (who : Char)
  | mountainMoved (x y : Int)
  deriving DecidableEq, Repr

/-- The `Character` struct of the source: symbol, position, carrot flag,
alive flag, id. -/
structure Character where
  symbol : Char
  x : Int
  y : Int
  has_carrot : Bool
  alive : Bool
  id : Nat
  deriving DecidableEq, Repr

/-- The game board: `char board[SIZE][SIZE]`, as a total function on `Int`
indices (only `[0,5) × [0,5)` is meaningful). -/
def Board : Type := Int → Int → Char

/-- Writing one cell of the board. -/
def setCell (b : Board) (x y : Int) (c : Char) : Board :=
  fun i j => if i = x ∧ j = y then c else b i j

/-- The whole shared state of the program: the board, the `characters`
array and the global counters `carrots_placed`, `cycle_count`,
`game_over`, `step_count`, plus the log of printed announcements. -/
structure GameState where
  board : Board
  characters : Fin 4 → Character
  carrots_placed : Nat
  cycle_count : Nat
  game_over : Bool
  step_count : Nat
  log : List Event

/-- `int dx[4] = {0, 0, 1, -1}` -/
def dx : Fin 4 → Int
  | 0 => 0
  | 1 => 0
  | 2 => 1
  | 3 => -1

/-- `int dy[4] = {1, -1, 0, 0}` -/
def dy : Fin 4 → Int
  | 0 => 1
  | 1 => -1
  | 2 => 0
  | 3 => 0

/-- `is_valid`: bounds check against `SIZE = 5`. -/
def is_valid (x y : Int) : Bool :=
  decide (0 ≤ x ∧ x < 5 ∧ 0 ≤ y ∧ y < 5)

/-! ## Board setup (`init_board`) -/

/-- One rejection-sampled placement: keep drawing `rand() % SIZE` pairs
until an empty (`'.'`) cell is found, then write `ch` there.  Returns the
updated board and the chosen coordinates, or `none` when the supplied
draws never hit an empty cell (the C loop would spin forever). -/
def place (b : Board) (draws : List (Fin 5 × Fin 5)) (ch : Char) :
    Option (Board × Int × Int) :=
  (draws.find? fun p => b (p.1.val : Int) (p.2.val : Int) = '.').map
    fun p => (setCell b (p.1.val : Int) (p.2.val : Int) ch, (p.1.val : Int), (p.2.val : Int))

/-- The symbols `{'B', 'D', 'T', 'M'}` in array order. -/
def charSymbols : Fin 4 → Char
  | 0 => 'B'
  | 1 => 'D'
  | 2 => 'T'
  | 3 => 'M'

/-- `init_board`: clear the board, place the mountain `'F'`, two carrots
`'C'`, then the four characters B, D, T, M, each at a rejection-sampled
empty cell.  The global counters start at their C initial values. -/
def init_board (fDraws c1Draws c2Draws bDraws dDraws tDraws mDraws :
    List (Fin 5 × Fin 5)) : Option GameState :=
  (place (fun _ _ => '.') fDraws 'F').bind fun r0 =>
  (place r0.1 c1Draws 'C').bind fun r1 =>
  (place r1.1 c2Draws 'C').bind fun r2 =>
  (place r2.1 bDraws 'B').bind fun rB =>
  (place rB.1 dDraws 'D').bind fun rD =>
  (place rD.1 tDraws 'T').bind fun rT =>
  (place rT.1 mDraws 'M').bind fun rM =>
  some
    { board := rM.1
      characters := fun i =>
        match i with
        | 0 => ⟨'B', rB.2.1, rB.2.2, false, true, 0⟩
        | 1 => ⟨'D', rD.2.1, rD.2.2, false, true, 1⟩
        | 2 => ⟨'T', rT.2.1, rT.2.2, false, true, 2⟩
        | 3 => ⟨'M', rM.2.1, rM.2.2, false, true, 3⟩
      carrots_placed := 0
      cycle_count := 0
      game_over := false
      step_count := 0
      log := [] }

/-! ## One iteration of `character_thread` -/

/-- Line 124-125: `cycle_count++; step_count++;`. -/
def bumpCounters (s : GameState) : GameState :=
  { s with cycle_count := s.cycle_count + 1, step_count := s.step_count + 1 }

/-- The first alive character in array order (`for i in 0..3`). -/
def firstAlive (cs : Fin 4 → Character) : Option (Fin 4) :=
  (List.finRange 4).find? fun i => (cs i).alive

/-- Lines 128-139: `step_count >= MAX_STEPS` — declare the first alive
character the winner and set `game_over`. -/
def capBranch (s : GameState) : GameState :=
  match firstAlive s.characters with
  | some i =>
      { s with game_over := true
               log := s.log ++ [Event.maxStepsWinner (s.characters i).symbol] }
  | none => s

/-- Lines 142-143: clear the mover's current cell, but only when it still
holds the mover's own symbol. -/
def clearedBoard (s : GameState) (m : Fin 4) : Board :=
  if s.board (s.characters m).x (s.characters m).y = (s.characters m).symbol then
    setCell s.board (s.characters m).x (s.characters m).y '.'
  else s.board

/-- Lines 146-150: the candidate cell: one step in direction `d`, clamped
back to the current cell when out of bounds. -/
def candCell (s : GameState) (m : Fin 4) (d : Fin 4) : Int × Int :=
  let nx := (s.characters m).x + dx d
  let ny := (s.characters m).y + dy d
  if is_valid nx ny then (nx, ny) else ((s.characters m).x, (s.characters m).y)

/-- Line 152: `char target = board[nx][ny];` (read after the clear). -/
def candTarget (s : GameState) (m : Fin 4) (d : Fin 4) : Char :=
  clearedBoard s m (candCell s m d).1 (candCell s m d).2

/-- One iteration of Marvin's elimination loop (lines 156-167) at index
`i`: if `i != c->id` and `characters[i]` is alive at the candidate cell,
steal its carrot if it has one, mark it dead and clear its board cell. -/
def elim_iter (m : Fin 4) (cid : Nat) (nx ny : Int)
    (acc : (Fin 4 → Character) × Board × List Event) (i : Fin 4) :
    (Fin 4 → Character) × Board × List Event :=
  let cs := acc.1
  let b := acc.2.1
  let lg := acc.2.2
  let ci := cs i
  if i.val ≠ cid ∧ ci.alive = true ∧ ci.x = nx ∧ ci.y = ny then
    let csSteal :=
      if ci.has_carrot then
        Function.update (Function.update cs m { cs m with has_carrot := true }) i
          { ci with has_carrot := false }
      else cs
    let lgSteal := if ci.has_carrot then lg ++ [Event.stole ci.symbol] else lg
    let ci2 := csSteal i
    (Function.update csSteal i { ci2 with alive := false },
     setCell b ci2.x ci2.y '.',
     lgSteal ++ [Event.eliminated ci2.symbol nx ny])
  else acc

/-- The whole elimination loop `for (int i = 0; i < 4; i++)`. -/
def elimLoop (m : Fin 4) (cid : Nat) (nx ny : Int)
    (cs : Fin 4 → Character) (b : Board) (lg : List Event) :
    (Fin 4 → Character) × Board × List Event :=
  (List.finRange 4).foldl (elim_iter m cid nx ny) (cs, b, lg)

/-- Lines 154-169: the elimination phase runs only when the mover's symbol
is `'M'`. -/
def elimPhase (s : GameState) (m : Fin 4) (d : Fin 4) :
    (Fin 4 → Character) × Board × List Event :=
  if (s.characters m).symbol = 'M' then
    elimLoop m (s.characters m).id (candCell s m d).1 (candCell s m d).2
      s.characters (clearedBoard s m) s.log
  else (s.characters, clearedBoard s m, s.log)

/-- Line 172: the goal-cell veto: the candidate is the mountain and the
mover (after any theft in the elimination phase) holds no carrot. -/
def vetoCond (t : GameState) (m d : Fin 4) : Prop :=
  candTarget t m d = 'F' ∧ ((elimPhase t m d).1 m).has_carrot = false

instance (t : GameState) (m d : Fin 4) : Decidable (vetoCond t m d) := by
  unfold vetoCond; infer_instance

/-- Lines 172-174: the cell the mover ends on: the candidate cell, or the
original cell when the veto fires. -/
def finalCell (t : GameState) (m d : Fin 4) : Int × Int :=
  if vetoCond t m d then ((t.characters m).x, (t.characters m).y) else candCell t m d

/-- Line 177: the pickup guard. -/
def pickupCond (t : GameState) (m d : Fin 4) : Prop :=
  candTarget t m d = 'C' ∧ ((elimPhase t m d).1 m).has_carrot = false

instance (t : GameState) (m d : Fin 4) : Decidable (pickupCond t m d) := by
  unfold pickupCond; infer_instance

/-- Lines 177-180: pick up a carrot when the candidate holds one and the
mover has none. -/
def afterPickup (t : GameState) (m d : Fin 4) : (Fin 4 → Character) × List Event :=
  if pickupCond t m d then
    (Function.update (elimPhase t m d).1 m
       { (elimPhase t m d).1 m with has_carrot := true },
     (elimPhase t m d).2.2 ++
       [Event.pickedUp (t.characters m).symbol (candCell t m d).1 (candCell t m d).2])
  else ((elimPhase t m d).1, (elimPhase t m d).2.2)

/-- Line 183: the delivery guard (the carrot flag as of after pickup). -/
def deliverCond (t : GameState) (m d : Fin 4) : Prop :=
  candTarget t m d = 'F' ∧ ((afterPickup t m d).1 m).has_carrot = true

instance (t : GameState) (m d : Fin 4) : Decidable (deliverCond t m d) := by
  unfold deliverCond; infer_instance

/-- Lines 183-191: drop a carrot on the mountain, bump `carrots_placed`,
and declare the winner when the threshold `CARROTS = 2` is reached. -/
def afterDeliver (t : GameState) (m d : Fin 4) :
    (Fin 4 → Character) × Nat × Bool × List Event :=
  if deliverCond t m d then
    (Function.update (afterPickup t m d).1 m
       { (afterPickup t m d).1 m with has_carrot := false },
     t.carrots_placed + 1,
     (if t.carrots_placed + 1 = 2 then true else t.game_over),
     ((afterPickup t m d).2 ++
        [Event.placedCarrot (t.characters m).symbol (t.carrots_placed + 1)]) ++
       (if t.carrots_placed + 1 = 2 then [Event.wins (t.characters m).symbol] else []))
  else ((afterPickup t m d).1, t.carrots_placed, t.game_over, (afterPickup t m d).2)

/-- Lines 141-196 of `character_thread`: clear the old cell
(conditionally), pick the candidate cell, run the elimination phase, the
goal veto, the carrot pickup, the delivery, and finally commit the
position (lines 194-196) and write the mover's symbol onto the board. -/
def movePhase (t : GameState) (m d : Fin 4) : GameState :=
  { t with
    board := setCell (elimPhase t m d).2.1 (finalCell t m d).1 (finalCell t m d).2
      (t.characters m).symbol
    characters := Function.update (afterDeliver t m d).1 m
      { (afterDeliver t m d).1 m with x := (finalCell t m d).1, y := (finalCell t m d).2 }
    carrots_placed := (afterDeliver t m d).2.1
    game_over := (afterDeliver t m d).2.2.1
    log := (afterDeliver t m d).2.2.2 }

/-- The scan of lines 89-95 looking for the mountain: the `break` leaves
the inner loop only, so the result is the first `'F'` of the last row
containing one, and `(-1, -1)` when the board has no `'F'` at all. -/
def findF (b : Board) : Int × Int :=
  (List.range 5).foldl
    (fun (acc : Int × Int) (i : Nat) =>
      match (List.range 5).find? (fun (j : Nat) => b (Int.ofNat i) (Int.ofNat j) = 'F') with
      | some j => (Int.ofNat i, Int.ofNat j)
      | none => acc)
    (-1, -1)

/-- `move_mountain` (lines 86-107): locate the mountain, rejection-sample
a new empty cell, clear the old coordinates (which are `(-1,-1)` when no
`'F'` was found!) and write `'F'` at the new cell.  A `draws` list with no
empty hit models the non-terminating sampling loop (no state change). -/
def move_mountain (s : GameState) (draws : List (Fin 5 × Fin 5)) : GameState :=
  let old := findF s.board
  match draws.find? (fun p => s.board (p.1.val : Int) (p.2.val : Int) = '.') with
  | some p =>
      { s with
        board := setCell (setCell s.board old.1 old.2 '.') (p.1.val : Int) (p.2.val : Int) 'F'
        log := s.log ++ [Event.mountainMoved (p.1.val : Int) (p.2.val : Int)] }
  | none => s

/-- One full iteration of the `character_thread` loop body for the mover
`m` (the critical section of lines 118-208): the re-check of liveness and
game-over, the counter bumps (`cycle_count++; step_count++`), the
`MAX_STEPS` cap, the move phase, and Marvin's periodic time machine
(which fires when the incremented cycle counter is divisible by
`CYCLES_PER_TIME_MACHINE = 3` and the mover's symbol is `'M'`). -/
def step (s : GameState) (m : Fin 4) (d : Fin 4)
    (mtnDraws : List (Fin 5 × Fin 5)) : GameState :=
  if !(s.characters m).alive || s.game_over then s
  else if 100 ≤ s.step_count + 1 then capBranch (bumpCounters s)
  else if (s.cycle_count + 1) % 3 = 0 ∧ (s.characters m).symbol = 'M' then
    move_mountain (movePhase (bumpCounters s) m d) mtnDraws
  else movePhase (bumpCounters s) m d

/-- The reachable states of the program: a successfully initialized board,
closed under steps by any mover with any random draws.  Interleaving of
the four threads is arbitrary; the mutex makes each step atomic. -/
inductive Reachable : GameState → Prop where
  | base (fD c1D c2D bD dD tD mD : List (Fin 5 × Fin 5)) {s : GameState} :
      init_board fD c1D c2D bD dD tD mD = some s → Reachable s
  | next {s : GameState} (m d : Fin 4) (mtnDraws : List (Fin 5 × Fin 5)) :
      Reachable s → Reachable (step s m d mtnDraws)

/-! ## Counting items -/

/-- The 25 in-range cells of the board. -/
def gridCells : List (Int × Int) :=
  (List.range 5).flatMap fun i => (List.range 5).map fun j => ((i : Int), (j : Int))

/-- The number of carrot markers `'C'` on the (in-range part of the) board. -/
def countC (b : Board) : Nat :=
  gridCells.countP fun p => b p.1 p.2 == 'C'

/-- The number of characters whose `has_carrot` flag is set. -/
def carryCount (cs : Fin 4 → Character) : Nat :=
  (if (cs 0).has_carrot then 1 else 0) + (if (cs 1).has_carrot then 1 else 0) +
    (if (cs 2).has_carrot then 1 else 0) + (if (cs 3).has_carrot then 1 else 0)

/-- The conserved-in-spec quantity: carrots on the grid, plus carrots
being carried, plus carrots placed on the mountain. -/
def itemSum (s : GameState) : Nat :=
  countC s.board + carryCount s.characters + s.carrots_placed

/-- A throwaway state used only as the default of `Option.getD`. -/
def junkState : GameState :=
  { board := fun _ _ => '.', characters := fun _ => ⟨'B', 0, 0, false, false, 0⟩,
    carrots_placed := 0, cycle_count := 0, game_over := false, step_count := 0, log := [] }

/-! ## Concrete runs

Each `sNX` state below is obtained by running `init_board` on explicit
random draws and then stepping with explicit movers, directions and draws.
-/

/-- Run A initial state: F(0,0); C(0,4), C(4,0); B(3,3), D(3,4), T(4,3), M(4,4). -/
def s0A : GameState :=
  (init_board [(0, 0)] [(0, 4)] [(4, 0)] [(3, 3)] [(3, 4)] [(4, 3)] [(4, 4)]).getD junkState

/-- Run A after one step: B moves right onto D's cell. -/
def s1A : GameState := step s0A 0 0 []

/-- Run B initial state: F(0,0); C(1,2), C(1,3); B(1,1), D(4,0), T(4,2), M(4,4). -/
def s0B : GameState :=
  (init_board [(0, 0)] [(1, 2)] [(1, 3)] [(1, 1)] [(4, 0)] [(4, 2)] [(4, 4)]).getD junkState

/-- Run B: B picks up the carrot at (1,2). -/
def s1B : GameState := step s0B 0 0 []

/-- Run B: B, already carrying, steps onto the carrot cell (1,3). -/
def s2B : GameState := step s1B 0 0 []

/-- Run C initial state: F(0,0); C(2,3), C(0,4); B(3,3), D(2,2), T(4,0), M(3,4). -/
def s0C : GameState :=
  (init_board [(0, 0)] [(2, 3)] [(0, 4)] [(3, 3)] [(2, 2)] [(4, 0)] [(3, 4)]).getD junkState

/-- Run C: D moves right to (2,3) and picks up the carrot. -/
def s1C : GameState := step s0C 1 0 []

/-- Run C: B moves up onto (2,3), sharing the cell with D. -/
def s2C : GameState := step s1C 0 3 []

/-- Run C: B moves up again to (1,3), leaving `'.'` under D. -/
def s3C : GameState := step s2C 0 3 []

/-- Run C: T shuffles right. -/
def s4C : GameState := step s3C 2 0 []

/-- Run C: T shuffles back left. -/
def s5C : GameState := step s4C 2 1 []

/-- Run C: M moves up to (2,4); global cycle 6 triggers the time machine,
which relocates the mountain onto (2,3) — the cell D is standing on. -/
def s6C : GameState := step s5C 3 3 [(2, 3)]

/-- Run C: M (carrying nothing) moves left onto the goal cell (2,3):
it robs and eliminates D, and immediately delivers the stolen carrot. -/
def s7C : GameState := step s6C 3 1 []

/-- Run C: T shuffles right again (global cycle 8). -/
def s8C : GameState := step s7C 2 0 []

/-- Run D initial state: F(0,0); C(0,4), C(1,4); B(2,2), D(4,4), T(0,2), M(3,3). -/
def s0D : GameState :=
  (init_board [(0, 0)] [(0, 4)] [(1, 4)] [(2, 2)] [(4, 4)] [(0, 2)] [(3, 3)]).getD junkState

/-- Run D: B moves right. -/
def s1D : GameState := step s0D 0 0 []

/-- Run D: B moves right again. -/
def s2D : GameState := step s1D 0 0 []

/-- Run D: Marvin's very first move, at global cycle 3: the time machine
fires and the mountain relocates to (4,2). -/
def s3D : GameState := step s2D 3 3 [(4, 2)]

/-! ## Invariants -/

/-- A coordinate pair inside the 5x5 board. -/
def InRange (x y : Int) : Prop := 0 ≤ x ∧ x < 5 ∧ 0 ≤ y ∧ y < 5

instance (x y : Int) : Decidable (InRange x y) := by
  unfold InRange; infer_instance

/-- `Event.mountainMoved` recognizer. -/
def isMountainEvent : Event → Bool
  | .mountainMoved _ _ => true
  | _ => false

/-- Number of mountain relocation announcements in a log. -/
def mtnCount (l : List Event) : Nat := l.countP isMountainEvent

/-- The inductive well-formedness invariant of reachable states:
symbols and ids are the setup ones, positions are in range, no character
stands on a carrot marker, a character's symbol occurs on the board only
at that character's position and only while it is alive, the step counter
stays below `MAX_STEPS` while the game is running, and the item sum is
bounded by the initial carrot count. -/
def WF (s : GameState) : Prop :=
  (∀ i : Fin 4, (s.characters i).symbol = charSymbols i) ∧
  (∀ i : Fin 4, (s.characters i).id = i.val) ∧
  (∀ i : Fin 4, InRange (s.characters i).x (s.characters i).y) ∧
  (∀ i : Fin 4, s.board (s.characters i).x (s.characters i).y ≠ 'C') ∧
  (∀ i : Fin 4, ∀ x y : Int, s.board x y = (s.characters i).symbol →
      (s.characters i).alive = true ∧ x = (s.characters i).x ∧ y = (s.characters i).y) ∧
  (s.game_over = false → s.step_count < 100) ∧
  itemSum s ≤ 2

/-- Zero or more further steps of the simulation. -/
inductive StepsTo : GameState → GameState → Prop where
  | refl (s : GameState) : StepsTo s s
  | tail {s t : GameState} (m d : Fin 4) (mtnDraws : List (Fin 5 × Fin 5)) :
      StepsTo s t → StepsTo s (step t m d mtnDraws)

/-! ## Hand-crafted witness states -/

/-- A state with `'B'` (not carrying) standing at (1,1) next to the
mountain at (1,2). -/
def wGoal : GameState :=
  { board := setCell (fun _ _ => '.') 1 2 'F'
    characters := fun i =>
      match i with
      | 0 => ⟨'B', 1, 1, true, true, 0⟩
      | 1 => ⟨'D', 4, 0, false, true, 1⟩
      | 2 => ⟨'T', 4, 2, false, true, 2⟩
      | 3 => ⟨'M', 4, 4, false, true, 3⟩
    carrots_placed := 0, cycle_count := 0, game_over := false, step_count := 0, log := [] }

/-- Like `wGoal` but with one carrot already delivered, so the next
delivery reaches the win threshold. -/
def wGoal2 : GameState := { wGoal with carrots_placed := 1 }

/-- A state with Marvin at (2,2) and a living, carrot-carrying `'D'` on
the adjacent cell (2,3). -/
def wElim : GameState :=
  { board := setCell (setCell (setCell (fun _ _ => '.') 0 0 'F') 2 3 'D') 2 2 'M'
    characters := fun i =>
      match i with
      | 0 => ⟨'B', 4, 4, false, true, 0⟩
      | 1 => ⟨'D', 2, 3, true, true, 1⟩
      | 2 => ⟨'T', 4, 2, false, true, 2⟩
      | 3 => ⟨'M', 2, 2, false, true, 3⟩
    carrots_placed := 0, cycle_count := 0, game_over := false, step_count := 0, log := [] }

/-- A state with `'B'` standing on its own symbol at (0,0), free to move
right. -/
def wMove : GameState :=
  { board := setCell (setCell (fun _ _ => '.') 4 4 'F') 0 0 'B'
    characters := fun i =>
      match i with
      | 0 => ⟨'B', 0, 0, false, true, 0⟩
      | 1 => ⟨'D', 4, 0, false, true, 1⟩
      | 2 => ⟨'T', 4, 2, false, true, 2⟩
      | 3 => ⟨'M', 2, 4, false, true, 3⟩
    carrots_placed := 0, cycle_count := 0, game_over := false, step_count := 0, log := [] }

/-- A state one step short of the `MAX_STEPS` cap. -/
def wCap : GameState := { s0A with step_count := 99 }

/-! ## Basic lemmas about the board and counting -/

theorem setCell_apply (b : Board) (u v x y : Int) (ch : Char) :
    setCell b u v ch x y = if x = u ∧ y = v then ch else b x y := rfl

theorem setCell_self (b : Board) (u v : Int) (ch : Char) : setCell b u v ch u v = ch := by
  simp [setCell]

theorem setCell_ne (b : Board) (u v x y : Int) (ch : Char) (h : ¬(x = u ∧ y = v)) :
    setCell b u v ch x y = b x y := by
  simp [setCell, h]

theorem natPair_mem_gridCells (i j : Nat) (hi : i < 5) (hj : j < 5) :
    ((i : Int), (j : Int)) ∈ gridCells := by
  interval_cases i <;> interval_cases j <;> decide

theorem mem_gridCells (x y : Int) (h : InRange x y) : (x, y) ∈ gridCells := by
  obtain ⟨hx0, hx5, hy0, hy5⟩ := h
  have hpair : ((x.toNat : Int), (y.toNat : Int)) = (x, y) := by
    simp only [Prod.ext_iff]
    omega
  rw [← hpair]
  exact natPair_mem_gridCells x.toNat y.toNat (by omega) (by omega)

theorem inRange_of_mem_gridCells (p : Int × Int) (h : p ∈ gridCells) : InRange p.1 p.2 := by
  have : ∀ q ∈ gridCells, InRange q.1 q.2 := by decide
  exact this p h

theorem gridCells_nodup : gridCells.Nodup := by decide

/-- Generic counting lemma: if a predicate implies another pointwise on a
list, the count is no larger. -/
theorem countP_le_of_imp {α : Type} (l : List α) (p q : α → Bool)
    (h : ∀ a ∈ l, p a = true → q a = true) : l.countP p ≤ l.countP q := by
  induction l with
  | nil => simp
  | cons a l ih =>
      rw [List.countP_cons, List.countP_cons]
      have hl := ih (fun a ha => h a (List.mem_cons_of_mem _ ha))
      by_cases hpa : p a = true
      · have := h a (List.mem_cons_self a l) hpa
        simp [hpa, this]; omega
      · simp [Bool.eq_false_iff.mpr hpa]; omega

/-- Generic counting lemma: a pointwise-smaller predicate that is
additionally false at one member where the larger one is true counts
strictly lower. -/
theorem countP_succ_le_of_imp {α : Type} (l : List α) (p q : α → Bool) (a : α)
    (ha : a ∈ l) (hpa : p a = false) (hqa : q a = true)
    (h : ∀ b ∈ l, p b = true → q b = true) : l.countP p + 1 ≤ l.countP q := by
  induction l with
  | nil => simp at ha
  | cons c l ih =>
      rw [List.countP_cons, List.countP_cons]
      rcases List.mem_cons.mp ha with rfl | hal
      · have hle := countP_le_of_imp l p q (fun b hb => h b (List.mem_cons_of_mem _ hb))
        simp [hpa, hqa]; omega
      · have hle := ih hal (fun b hb => h b (List.mem_cons_of_mem _ hb))
        by_cases hpc : p c = true
        · have := h c (List.mem_cons_self c l) hpc
          simp [hpc, this]; omega
        · simp [Bool.eq_false_iff.mpr hpc]; omega

/-- Generic counting lemma: pointwise equal predicates count equal. -/
theorem countP_congr_here {α : Type} (l : List α) (p q : α → Bool)
    (h : ∀ a ∈ l, p a = q a) : l.countP p = l.countP q := by
  induction l with
  | nil => simp
  | cons a l ih =>
      rw [List.countP_cons, List.countP_cons,
        ih (fun a ha => h a (List.mem_cons_of_mem _ ha)), h a (List.mem_cons_self a l)]

/-- Generic counting lemma: flipping a predicate from false to true at
exactly one member of a duplicate-free list raises the count by one. -/
theorem countP_flip {α : Type} (l : List α) (hnd : l.Nodup) (a : α) (ha : a ∈ l)
    (p q : α → Bool) (hpa : p a = false) (hqa : q a = true)
    (hother : ∀ b ∈ l, b ≠ a → p b = q b) : l.countP q = l.countP p + 1 := by
  induction l with
  | nil => simp at ha
  | cons c l ih =>
      have hnd' := (List.nodup_cons.mp hnd).2
      have hcl := (List.nodup_cons.mp hnd).1
      rw [List.countP_cons, List.countP_cons]
      rcases List.mem_cons.mp ha with rfl | hal
      · have heq : l.countP q = l.countP p := by
          refine (countP_congr_here l p q ?_).symm
          intro b hb
          exact hother b (List.mem_cons_of_mem _ hb) (fun hba => hcl (hba ▸ hb))
        simp [heq, hpa, hqa]
      · have hca : c ≠ a := fun hc => hcl (hc ▸ hal)
        have hhd := hother c (List.mem_cons_self c l) hca
        rw [ih hnd' hal (fun b hb hba => hother b (List.mem_cons_of_mem _ hb) hba), hhd]
        omega

theorem countC_mono (b b' : Board)
    (h : ∀ x y : Int, InRange x y → b' x y = 'C' → b x y = 'C') :
    countC b' ≤ countC b := by
  refine countP_le_of_imp _ _ _ ?_
  intro p hp hb'
  have hin := inRange_of_mem_gridCells p hp
  simp only [beq_iff_eq] at hb' ⊢
  exact h p.1 p.2 hin hb'

theorem countC_setCell_le (b : Board) (x y : Int) (ch : Char) (hch : ch ≠ 'C') :
    countC (setCell b x y ch) ≤ countC b := by
  refine countP_le_of_imp _ _ _ ?_
  intro p _ hb'
  simp only [beq_iff_eq, setCell_apply] at hb' ⊢
  by_cases hxy : p.1 = x ∧ p.2 = y
  · simp [hxy] at hb'; exact absurd hb' hch
  · simpa [hxy] using hb'

theorem countC_setCell_of_ne (b : Board) (x y : Int) (ch : Char) (hch : ch ≠ 'C')
    (hb : b x y ≠ 'C') : countC (setCell b x y ch) = countC b := by
  refine countP_congr_here _ _ _ ?_
  intro p _
  simp only [setCell_apply]
  by_cases hxy : p.1 = x ∧ p.2 = y
  · obtain ⟨h1, h2⟩ := hxy
    simp only [h1, h2, and_self, if_true]
    rw [Bool.eq_iff_iff]
    simp [beq_iff_eq, hch, hb]
  · simp [hxy]

theorem countC_setCell_C (b : Board) (x y : Int) (hin : InRange x y)
    (hb : b x y ≠ 'C') : countC (setCell b x y 'C') = countC b + 1 := by
  unfold countC
  refine countP_flip gridCells gridCells_nodup (x, y) (mem_gridCells x y hin) _ _ ?_ ?_ ?_
  · simp [beq_iff_eq, hb]
  · simp [setCell_self]
  · intro p _ hpa
    have hxy : ¬(p.1 = x ∧ p.2 = y) := by
      intro hc
      exact hpa (Prod.ext hc.1 hc.2)
    simp [setCell_ne _ _ _ _ _ _ hxy]

/-- Strict decrease of the carrot count: if every `'C'` of `b2` was a
`'C'` of `b1` and one in-range `'C'` cell of `b1` is no longer `'C'` in
`b2`, the count drops. -/
theorem countC_succ_le (b1 b2 : Board) (x y : Int) (hin : InRange x y)
    (hq : b1 x y = 'C') (hq' : b2 x y ≠ 'C')
    (h : ∀ u v : Int, InRange u v → b2 u v = 'C' → b1 u v = 'C') :
    countC b2 + 1 ≤ countC b1 := by
  unfold countC
  refine countP_succ_le_of_imp gridCells _ _ (x, y) (mem_gridCells x y hin) ?_ ?_ ?_
  · simp [beq_iff_eq, hq']
  · simp [beq_iff_eq, hq]
  · intro p hp hb2
    have hin' := inRange_of_mem_gridCells p hp
    simp only [beq_iff_eq] at hb2 ⊢
    exact h p.1 p.2 hin' hb2

/-! ## Carry-count lemmas -/

theorem carryCount_update_true (cs : Fin 4 → Character) (m : Fin 4) (ch : Character)
    (h0 : (cs m).has_carrot = false) (h1 : ch.has_carrot = true) :
    carryCount (Function.update cs m ch) = carryCount cs + 1 := by
  fin_cases m <;> simp_all [carryCount, Function.update] <;> omega

theorem carryCount_update_false (cs : Fin 4 → Character) (m : Fin 4) (ch : Character)
    (h0 : (cs m).has_carrot = true) (h1 : ch.has_carrot = false) :
    carryCount (Function.update cs m ch) + 1 = carryCount cs := by
  fin_cases m <;> simp_all [carryCount, Function.update] <;> omega

theorem carryCount_update_congr (cs : Fin 4 → Character) (m : Fin 4) (ch : Character)
    (h : ch.has_carrot = (cs m).has_carrot) :
    carryCount (Function.update cs m ch) = carryCount cs := by
  fin_cases m <;> simp_all [carryCount, Function.update]

/-! ## Per-iteration lemmas for Marvin's elimination loop -/

theorem elim_iter_char_of_ne (m : Fin 4) (cid : Nat) (nx ny : Int)
    (acc : (Fin 4 → Character) × Board × List Event) (i j : Fin 4)
    (hji : j ≠ i) (hjm : j ≠ m) : (elim_iter m cid nx ny acc i).1 j = acc.1 j := by
  unfold elim_iter
  by_cases hc : i.val ≠ cid ∧ (acc.1 i).alive = true ∧ (acc.1 i).x = nx ∧ (acc.1 i).y = ny
  · rw [if_pos hc]
    by_cases hcar : (acc.1 i).has_carrot = true
    · rw [if_pos hcar]
      simp only
      rw [Function.update_noteq hji, Function.update_noteq hji, Function.update_noteq hjm]
    · rw [if_neg hcar]
      simp only
      rw [Function.update_noteq hji]
  · rw [if_neg hc]

theorem elim_iter_static (m : Fin 4) (cid : Nat) (nx ny : Int)
    (acc : (Fin 4 → Character) × Board × List Event) (i j : Fin 4) :
    ((elim_iter m cid nx ny acc i).1 j).symbol = (acc.1 j).symbol ∧
    ((elim_iter m cid nx ny acc i).1 j).id = (acc.1 j).id ∧
    ((elim_iter m cid nx ny acc i).1 j).x = (acc.1 j).x ∧
    ((elim_iter m cid nx ny acc i).1 j).y = (acc.1 j).y := by
  unfold elim_iter
  by_cases hc : i.val ≠ cid ∧ (acc.1 i).alive = true ∧ (acc.1 i).x = nx ∧ (acc.1 i).y = ny
  · rw [if_pos hc]
    by_cases hcar : (acc.1 i).has_carrot = true
    · rw [if_pos hcar]
      simp only
      by_cases hji : j = i
      · subst hji
        by_cases hjm : j = m
        · subst hjm
          simp [Function.update]
        · rw [Function.update_same, Function.update_same]
          exact ⟨rfl, rfl, rfl, rfl⟩
      · rw [Function.update_noteq hji, Function.update_noteq hji]
        by_cases hjm : j = m
        · subst hjm
          rw [Function.update_same]
          exact ⟨rfl, rfl, rfl, rfl⟩
        · rw [Function.update_noteq hjm]
          exact ⟨rfl, rfl, rfl, rfl⟩
    · rw [if_neg hcar]
      simp only
      by_cases hji : j = i
      · subst hji
        rw [Function.update_same]
        exact ⟨rfl, rfl, rfl, rfl⟩
      · rw [Function.update_noteq hji]
        exact ⟨rfl, rfl, rfl, rfl⟩
  · rw [if_neg hc]
    exact ⟨rfl, rfl, rfl, rfl⟩

theorem elim_iter_alive_le (m : Fin 4) (cid : Nat) (nx ny : Int)
    (acc : (Fin 4 → Character) × Board × List Event) (i j : Fin 4)
    (h : ((elim_iter m cid nx ny acc i).1 j).alive = true) : (acc.1 j).alive = true := by
  revert h
  unfold elim_iter
  by_cases hc : i.val ≠ cid ∧ (acc.1 i).alive = true ∧ (acc.1 i).x = nx ∧ (acc.1 i).y = ny
  · rw [if_pos hc]
    by_cases hcar : (acc.1 i).has_carrot = true
    · rw [if_pos hcar]
      simp only
      by_cases hji : j = i
      · subst hji
        rw [Function.update_same]
        intro h
        exact absurd h (by simp)
      · rw [Function.update_noteq hji, Function.update_noteq hji]
        by_cases hjm : j = m
        · subst hjm
          rw [Function.update_same]
          exact fun h => h
        · rw [Function.update_noteq hjm]
          exact fun h => h
    · rw [if_neg hcar]
      simp only
      by_cases hji : j = i
      · subst hji
        rw [Function.update_same]
        intro h
        exact absurd h (by simp)
      · rw [Function.update_noteq hji]
        exact fun h => h
  · rw [if_neg hc]
    exact fun h => h

theorem elim_iter_mover_carrot (m : Fin 4) (cid : Nat) (nx ny : Int)
    (acc : (Fin 4 → Character) × Board × List Event) (i : Fin 4) (hcid : cid = m.val)
    (h : (acc.1 m).has_carrot = true) :
    ((elim_iter m cid nx ny acc i).1 m).has_carrot = true := by
  unfold elim_iter
  by_cases hc : i.val ≠ cid ∧ (acc.1 i).alive = true ∧ (acc.1 i).x = nx ∧ (acc.1 i).y = ny
  · have him : m ≠ i := by
      intro he
      exact hc.1 (by rw [← he, hcid])
    rw [if_pos hc]
    by_cases hcar : (acc.1 i).has_carrot = true
    · rw [if_pos hcar]
      simp only
      rw [Function.update_noteq him, Function.update_noteq him, Function.update_same]
    · rw [if_neg hcar]
      simp only
      rw [Function.update_noteq him]
      exact h
  · rw [if_neg hc]
    exact h

theorem elim_iter_mover_alive (m : Fin 4) (cid : Nat) (nx ny : Int)
    (acc : (Fin 4 → Character) × Board × List Event) (i : Fin 4) (hcid : cid = m.val) :
    ((elim_iter m cid nx ny acc i).1 m).alive = (acc.1 m).alive := by
  unfold elim_iter
  by_cases hc : i.val ≠ cid ∧ (acc.1 i).alive = true ∧ (acc.1 i).x = nx ∧ (acc.1 i).y = ny
  · have him : m ≠ i := by
      intro he
      exact hc.1 (by rw [← he, hcid])
    rw [if_pos hc]
    by_cases hcar : (acc.1 i).has_carrot = true
    · rw [if_pos hcar]
      simp only
      rw [Function.update_noteq him, Function.update_noteq him, Function.update_same]
    · rw [if_neg hcar]
      simp only
      rw [Function.update_noteq him]
  · rw [if_neg hc]

theorem elim_iter_board_dot (m : Fin 4) (cid : Nat) (nx ny : Int)
    (acc : (Fin 4 → Character) × Board × List Event) (i : Fin 4) (x y : Int) :
    (elim_iter m cid nx ny acc i).2.1 x y = acc.2.1 x y ∨
      (elim_iter m cid nx ny acc i).2.1 x y = '.' := by
  unfold elim_iter
  by_cases hc : i.val ≠ cid ∧ (acc.1 i).alive = true ∧ (acc.1 i).x = nx ∧ (acc.1 i).y = ny
  · rw [if_pos hc]
    by_cases hcar : (acc.1 i).has_carrot = true
    · rw [if_pos hcar]
      simp only
      rw [setCell_apply]
      split_ifs <;> simp
    · rw [if_neg hcar]
      simp only
      rw [setCell_apply]
      split_ifs <;> simp
  · rw [if_neg hc]
    left; rfl

theorem elim_iter_log_mono (m : Fin 4) (cid : Nat) (nx ny : Int)
    (acc : (Fin 4 → Character) × Board × List Event) (i : Fin 4) (e : Event)
    (h : e ∈ acc.2.2) : e ∈ (elim_iter m cid nx ny acc i).2.2 := by
  unfold elim_iter
  by_cases hc : i.val ≠ cid ∧ (acc.1 i).alive = true ∧ (acc.1 i).x = nx ∧ (acc.1 i).y = ny
  · rw [if_pos hc]
    by_cases hcar : (acc.1 i).has_carrot = true
    · rw [if_pos hcar]
      simp only
      rw [if_pos hcar]
      simp [h]
    · rw [if_neg hcar]
      simp only
      rw [if_neg hcar]
      simp [h]
  · rw [if_neg hc]
    exact h

theorem elim_iter_log_mtn (m : Fin 4) (cid : Nat) (nx ny : Int)
    (acc : (Fin 4 → Character) × Board × List Event) (i : Fin 4) :
    mtnCount (elim_iter m cid nx ny acc i).2.2 = mtnCount acc.2.2 := by
  unfold elim_iter
  by_cases hc : i.val ≠ cid ∧ (acc.1 i).alive = true ∧ (acc.1 i).x = nx ∧ (acc.1 i).y = ny
  · rw [if_pos hc]
    by_cases hcar : (acc.1 i).has_carrot = true
    · rw [if_pos hcar]
      simp only
      rw [if_pos hcar]
      simp [mtnCount, List.countP_append, isMountainEvent]
    · rw [if_neg hcar]
      simp only
      rw [if_neg hcar]
      simp [mtnCount, List.countP_append, isMountainEvent]
  · rw [if_neg hc]

theorem elim_iter_sum_le (m : Fin 4) (cid : Nat) (nx ny : Int)
    (acc : (Fin 4 → Character) × Board × List Event) (i : Fin 4) (hcid : cid = m.val) :
    countC (elim_iter m cid nx ny acc i).2.1 + carryCount (elim_iter m cid nx ny acc i).1 ≤
      countC acc.2.1 + carryCount acc.1 := by
  unfold elim_iter
  by_cases hc : i.val ≠ cid ∧ (acc.1 i).alive = true ∧ (acc.1 i).x = nx ∧ (acc.1 i).y = ny
  · have him : m ≠ i := by
      intro he
      exact hc.1 (by rw [← he, hcid])
    rw [if_pos hc]
    by_cases hcar : (acc.1 i).has_carrot = true
    · rw [if_pos hcar]
      simp only [Function.update_same]
      set csA := Function.update acc.1 m { acc.1 m with has_carrot := true } with hcsA
      have hb := countC_setCell_le acc.2.1 (acc.1 i).x (acc.1 i).y '.' (by decide)
      have hstep1 : carryCount (Function.update
          (Function.update csA i
            { symbol := (acc.1 i).symbol, x := (acc.1 i).x, y := (acc.1 i).y,
              has_carrot := false, alive := (acc.1 i).alive, id := (acc.1 i).id }) i
          { symbol := (acc.1 i).symbol, x := (acc.1 i).x, y := (acc.1 i).y,
            has_carrot := false, alive := false, id := (acc.1 i).id }) =
          carryCount (Function.update csA i
            { symbol := (acc.1 i).symbol, x := (acc.1 i).x, y := (acc.1 i).y,
              has_carrot := false, alive := (acc.1 i).alive, id := (acc.1 i).id }) := by
        refine carryCount_update_congr _ i _ ?_
        rw [Function.update_same]
      rw [hstep1]
      have hcarryB : carryCount (Function.update csA i
          { symbol := (acc.1 i).symbol, x := (acc.1 i).x, y := (acc.1 i).y,
            has_carrot := false, alive := (acc.1 i).alive, id := (acc.1 i).id }) + 1 =
          carryCount csA := by
        refine carryCount_update_false csA i _ ?_ rfl
        rw [hcsA, Function.update_noteq (fun h => him h.symm)]
        exact hcar
      have hcarryA : carryCount csA ≤ carryCount acc.1 + 1 := by
        by_cases hm : (acc.1 m).has_carrot = true
        · have heq : carryCount csA = carryCount acc.1 :=
            carryCount_update_congr acc.1 m _ hm.symm
          omega
        · have heq : carryCount csA = carryCount acc.1 + 1 :=
            carryCount_update_true acc.1 m _ (by revert hm; cases (acc.1 m).has_carrot <;> simp) rfl
          omega
      omega
    · rw [if_neg hcar]
      simp only [Function.update_same]
      have hb := countC_setCell_le acc.2.1 (acc.1 i).x (acc.1 i).y '.' (by decide)
      have hcarry : carryCount (Function.update acc.1 i
          { symbol := (acc.1 i).symbol, x := (acc.1 i).x, y := (acc.1 i).y,
            has_carrot := (acc.1 i).has_carrot, alive := false, id := (acc.1 i).id }) =
          carryCount acc.1 := carryCount_update_congr acc.1 i _ rfl
      omega
  · rw [if_neg hc]

theorem elim_iter_of_neg (m : Fin 4) (cid : Nat) (nx ny : Int)
    (acc : (Fin 4 → Character) × Board × List Event) (i : Fin 4)
    (hc : ¬(i.val ≠ cid ∧ (acc.1 i).alive = true ∧ (acc.1 i).x = nx ∧ (acc.1 i).y = ny)) :
    elim_iter m cid nx ny acc i = acc := by
  unfold elim_iter
  rw [if_neg hc]

theorem elim_iter_kill_cell (m : Fin 4) (cid : Nat) (nx ny : Int)
    (acc : (Fin 4 → Character) × Board × List Event) (i : Fin 4)
    (hc : i.val ≠ cid ∧ (acc.1 i).alive = true ∧ (acc.1 i).x = nx ∧ (acc.1 i).y = ny) :
    (elim_iter m cid nx ny acc i).2.1 (acc.1 i).x (acc.1 i).y = '.' := by
  unfold elim_iter
  rw [if_pos hc]
  by_cases hcar : (acc.1 i).has_carrot = true
  · rw [if_pos hcar]
    simp only [Function.update_same]
    exact setCell_self _ _ _ _
  · rw [if_neg hcar]
    simp only
    exact setCell_self _ _ _ _

theorem elim_iter_process (m : Fin 4) (cid : Nat) (nx ny : Int)
    (acc : (Fin 4 → Character) × Board × List Event) (j : Fin 4) (hjm : j ≠ m)
    (hc : j.val ≠ cid ∧ (acc.1 j).alive = true ∧ (acc.1 j).x = nx ∧ (acc.1 j).y = ny) :
    ((elim_iter m cid nx ny acc j).1 j).alive = false ∧
    ((elim_iter m cid nx ny acc j).1 j).has_carrot = false ∧
    ((acc.1 j).has_carrot = true →
      Event.stole (acc.1 j).symbol ∈ (elim_iter m cid nx ny acc j).2.2 ∧
      ((elim_iter m cid nx ny acc j).1 m).has_carrot = true) := by
  unfold elim_iter
  rw [if_pos hc]
  by_cases hcar : (acc.1 j).has_carrot = true
  · simp only [if_pos hcar, Function.update_same]
    refine ⟨?_, ?_, fun _ => ⟨?_, ?_⟩⟩
    · simp
    · simp
    · simp
    · rw [Function.update_noteq (fun h => hjm h.symm),
        Function.update_noteq (fun h => hjm h.symm), Function.update_same]
  · simp only [if_neg hcar, Function.update_same]
    refine ⟨?_, ?_, fun hcar2 => absurd hcar2 hcar⟩
    · simp
    · revert hcar
      cases (acc.1 j).has_carrot <;> simp

theorem elim_iter_R (m : Fin 4) (cid : Nat) (nx ny : Int)
    (acc : (Fin 4 → Character) × Board × List Event) (i j : Fin 4) (hjm : j ≠ m)
    (sym : Char) (hsym : sym ≠ '.')
    (hR : ∀ x y : Int, acc.2.1 x y = sym →
      (acc.1 j).alive = true ∧ x = (acc.1 j).x ∧ y = (acc.1 j).y) :
    ∀ x y : Int, (elim_iter m cid nx ny acc i).2.1 x y = sym →
      ((elim_iter m cid nx ny acc i).1 j).alive = true ∧
      x = ((elim_iter m cid nx ny acc i).1 j).x ∧
      y = ((elim_iter m cid nx ny acc i).1 j).y := by
  intro x y hxy
  by_cases hc : i.val ≠ cid ∧ (acc.1 i).alive = true ∧ (acc.1 i).x = nx ∧ (acc.1 i).y = ny
  · have hold : acc.2.1 x y = sym := by
      rcases elim_iter_board_dot m cid nx ny acc i x y with h | h
      · rw [← h]; exact hxy
      · exact absurd (h ▸ hxy).symm hsym
    have hcon := hR x y hold
    by_cases hij : i = j
    · subst hij
      have hkill := elim_iter_kill_cell m cid nx ny acc i hc
      rw [← hcon.2.1, ← hcon.2.2] at hkill
      rw [hkill] at hxy
      exact absurd hxy.symm hsym
    · have hch := elim_iter_char_of_ne m cid nx ny acc i j (fun h => hij h.symm) hjm
      rw [hch]
      exact hcon
  · rw [elim_iter_of_neg m cid nx ny acc i hc] at hxy ⊢
    exact hR x y hxy

/-! ## Fold-level lemmas for the elimination loop -/

theorem elimFold_char_of_not_mem (m : Fin 4) (cid : Nat) (nx ny : Int) (l : List (Fin 4))
    (acc : (Fin 4 → Character) × Board × List Event) (j : Fin 4)
    (hjl : j ∉ l) (hjm : j ≠ m) :
    (l.foldl (elim_iter m cid nx ny) acc).1 j = acc.1 j := by
  induction l generalizing acc with
  | nil => rfl
  | cons c l ih =>
      rw [List.foldl_cons]
      have hjc : j ≠ c := fun h => hjl (h ▸ List.mem_cons_self c l)
      rw [ih _ (fun h => hjl (List.mem_cons_of_mem _ h))]
      exact elim_iter_char_of_ne m cid nx ny acc c j hjc hjm

theorem elimFold_static (m : Fin 4) (cid : Nat) (nx ny : Int) (l : List (Fin 4))
    (acc : (Fin 4 → Character) × Board × List Event) (j : Fin 4) :
    ((l.foldl (elim_iter m cid nx ny) acc).1 j).symbol = (acc.1 j).symbol ∧
    ((l.foldl (elim_iter m cid nx ny) acc).1 j).id = (acc.1 j).id ∧
    ((l.foldl (elim_iter m cid nx ny) acc).1 j).x = (acc.1 j).x ∧
    ((l.foldl (elim_iter m cid nx ny) acc).1 j).y = (acc.1 j).y := by
  induction l generalizing acc with
  | nil => exact ⟨rfl, rfl, rfl, rfl⟩
  | cons c l ih =>
      rw [List.foldl_cons]
      have h1 := ih (elim_iter m cid nx ny acc c)
      have h2 := elim_iter_static m cid nx ny acc c j
      exact ⟨h1.1.trans h2.1, h1.2.1.trans h2.2.1, h1.2.2.1.trans h2.2.2.1,
        h1.2.2.2.trans h2.2.2.2⟩

theorem elimFold_alive_le (m : Fin 4) (cid : Nat) (nx ny : Int) (l : List (Fin 4))
    (acc : (Fin 4 → Character) × Board × List Event) (j : Fin 4)
    (h : ((l.foldl (elim_iter m cid nx ny) acc).1 j).alive = true) :
    (acc.1 j).alive = true := by
  induction l generalizing acc with
  | nil => exact h
  | cons c l ih =>
      rw [List.foldl_cons] at h
      exact elim_iter_alive_le m cid nx ny acc c j (ih _ h)

theorem elimFold_mover_carrot (m : Fin 4) (cid : Nat) (nx ny : Int) (l : List (Fin 4))
    (acc : (Fin 4 → Character) × Board × List Event) (hcid : cid = m.val)
    (h : (acc.1 m).has_carrot = true) :
    ((l.foldl (elim_iter m cid nx ny) acc).1 m).has_carrot = true := by
  induction l generalizing acc with
  | nil => exact h
  | cons c l ih =>
      rw [List.foldl_cons]
      exact ih _ (elim_iter_mover_carrot m cid nx ny acc c hcid h)

theorem elimFold_mover_alive (m : Fin 4) (cid : Nat) (nx ny : Int) (l : List (Fin 4))
    (acc : (Fin 4 → Character) × Board × List Event) (hcid : cid = m.val) :
    ((l.foldl (elim_iter m cid nx ny) acc).1 m).alive = (acc.1 m).alive := by
  induction l generalizing acc with
  | nil => rfl
  | cons c l ih =>
      rw [List.foldl_cons, ih _, elim_iter_mover_alive m cid nx ny acc c hcid]

theorem elimFold_board_dot (m : Fin 4) (cid : Nat) (nx ny : Int) (l : List (Fin 4))
    (acc : (Fin 4 → Character) × Board × List Event) (x y : Int) :
    (l.foldl (elim_iter m cid nx ny) acc).2.1 x y = acc.2.1 x y ∨
      (l.foldl (elim_iter m cid nx ny) acc).2.1 x y = '.' := by
  induction l generalizing acc with
  | nil => left; rfl
  | cons c l ih =>
      rw [List.foldl_cons]
      rcases ih (elim_iter m cid nx ny acc c) with h | h
      · rcases elim_iter_board_dot m cid nx ny acc c x y with h2 | h2
        · left; rw [h, h2]
        · right; rw [h, h2]
      · right; exact h

theorem elimFold_log_mono (m : Fin 4) (cid : Nat) (nx ny : Int) (l : List (Fin 4))
    (acc : (Fin 4 → Character) × Board × List Event) (e : Event)
    (h : e ∈ acc.2.2) : e ∈ (l.foldl (elim_iter m cid nx ny) acc).2.2 := by
  induction l generalizing acc with
  | nil => exact h
  | cons c l ih =>
      rw [List.foldl_cons]
      exact ih _ (elim_iter_log_mono m cid nx ny acc c e h)

theorem elimFold_log_mtn (m : Fin 4) (cid : Nat) (nx ny : Int) (l : List (Fin 4))
    (acc : (Fin 4 → Character) × Board × List Event) :
    mtnCount (l.foldl (elim_iter m cid nx ny) acc).2.2 = mtnCount acc.2.2 := by
  induction l generalizing acc with
  | nil => rfl
  | cons c l ih =>
      rw [List.foldl_cons, ih _, elim_iter_log_mtn m cid nx ny acc c]

theorem elimFold_sum_le (m : Fin 4) (cid : Nat) (nx ny : Int) (l : List (Fin 4))
    (acc : (Fin 4 → Character) × Board × List Event) (hcid : cid = m.val) :
    countC (l.foldl (elim_iter m cid nx ny) acc).2.1 +
      carryCount (l.foldl (elim_iter m cid nx ny) acc).1 ≤
      countC acc.2.1 + carryCount acc.1 := by
  induction l generalizing acc with
  | nil => exact le_rfl
  | cons c l ih =>
      rw [List.foldl_cons]
      exact (ih _).trans (elim_iter_sum_le m cid nx ny acc c hcid)

theorem elimFold_R (m : Fin 4) (cid : Nat) (nx ny : Int) (l : List (Fin 4))
    (acc : (Fin 4 → Character) × Board × List Event) (j : Fin 4) (hjm : j ≠ m)
    (sym : Char) (hsym : sym ≠ '.')
    (hR : ∀ x y : Int, acc.2.1 x y = sym →
      (acc.1 j).alive = true ∧ x = (acc.1 j).x ∧ y = (acc.1 j).y) :
    ∀ x y : Int, (l.foldl (elim_iter m cid nx ny) acc).2.1 x y = sym →
      ((l.foldl (elim_iter m cid nx ny) acc).1 j).alive = true ∧
      x = ((l.foldl (elim_iter m cid nx ny) acc).1 j).x ∧
      y = ((l.foldl (elim_iter m cid nx ny) acc).1 j).y := by
  induction l generalizing acc with
  | nil => exact hR
  | cons c l ih =>
      rw [List.foldl_cons]
      exact ih _ (elim_iter_R m cid nx ny acc c j hjm sym hsym hR)

theorem elimFold_process (m : Fin 4) (cid : Nat) (nx ny : Int) (l : List (Fin 4))
    (acc : (Fin 4 → Character) × Board × List Event) (j : Fin 4)
    (hnd : l.Nodup) (hjl : j ∈ l) (hjm : j ≠ m) (hcid : cid = m.val)
    (halive : (acc.1 j).alive = true) (hx : (acc.1 j).x = nx) (hy : (acc.1 j).y = ny) :
    ((l.foldl (elim_iter m cid nx ny) acc).1 j).alive = false ∧
    ((l.foldl (elim_iter m cid nx ny) acc).1 j).has_carrot = false ∧
    ((acc.1 j).has_carrot = true →
      Event.stole (acc.1 j).symbol ∈ (l.foldl (elim_iter m cid nx ny) acc).2.2 ∧
      ((l.foldl (elim_iter m cid nx ny) acc).1 m).has_carrot = true) := by
  induction l generalizing acc with
  | nil => simp at hjl
  | cons c l ih =>
      have hnd' := (List.nodup_cons.mp hnd).2
      have hcl := (List.nodup_cons.mp hnd).1
      rw [List.foldl_cons]
      rcases List.mem_cons.mp hjl with rfl | hjl'
      · -- `j` is processed right now, and is untouched by the rest
        have hjv : j.val ≠ cid := by
          rw [hcid]
          exact fun h => hjm (Fin.ext h)
        have hproc := elim_iter_process m cid nx ny acc j hjm ⟨hjv, halive, hx, hy⟩
        have hrest := elimFold_char_of_not_mem m cid nx ny l (elim_iter m cid nx ny acc j) j hcl hjm
        rw [hrest]
        refine ⟨hproc.1, hproc.2.1, fun hcar => ?_⟩
        have h3 := hproc.2.2 hcar
        exact ⟨elimFold_log_mono m cid nx ny l _ _ h3.1,
          elimFold_mover_carrot m cid nx ny l _ hcid h3.2⟩
      · -- iteration at `c ≠ j` leaves `j` unchanged
        have hjc : j ≠ c := fun h => hcl (h ▸ hjl')
        have hch := elim_iter_char_of_ne m cid nx ny acc c j hjc hjm
        have := ih (elim_iter m cid nx ny acc c) hnd' hjl'
          (by rw [hch]; exact halive) (by rw [hch]; exact hx) (by rw [hch]; exact hy)
        rw [hch] at this
        exact this

theorem elim_iter_carry_le (m : Fin 4) (cid : Nat) (nx ny : Int)
    (acc : (Fin 4 → Character) × Board × List Event) (i : Fin 4) (hcid : cid = m.val) :
    carryCount (elim_iter m cid nx ny acc i).1 ≤ carryCount acc.1 := by
  unfold elim_iter
  by_cases hc : i.val ≠ cid ∧ (acc.1 i).alive = true ∧ (acc.1 i).x = nx ∧ (acc.1 i).y = ny
  · have him : m ≠ i := by
      intro he
      exact hc.1 (by rw [← he, hcid])
    rw [if_pos hc]
    by_cases hcar : (acc.1 i).has_carrot = true
    · simp only [if_pos hcar, Function.update_same]
      set csA := Function.update acc.1 m { acc.1 m with has_carrot := true } with hcsA
      have hstep1 : carryCount (Function.update
          (Function.update csA i
            { symbol := (acc.1 i).symbol, x := (acc.1 i).x, y := (acc.1 i).y,
              has_carrot := false, alive := (acc.1 i).alive, id := (acc.1 i).id }) i
          { symbol := (acc.1 i).symbol, x := (acc.1 i).x, y := (acc.1 i).y,
            has_carrot := false, alive := false, id := (acc.1 i).id }) =
          carryCount (Function.update csA i
            { symbol := (acc.1 i).symbol, x := (acc.1 i).x, y := (acc.1 i).y,
              has_carrot := false, alive := (acc.1 i).alive, id := (acc.1 i).id }) := by
        refine carryCount_update_congr _ i _ ?_
        rw [Function.update_same]
      rw [hstep1]
      have hcarryB : carryCount (Function.update csA i
          { symbol := (acc.1 i).symbol, x := (acc.1 i).x, y := (acc.1 i).y,
            has_carrot := false, alive := (acc.1 i).alive, id := (acc.1 i).id }) + 1 =
          carryCount csA := by
        refine carryCount_update_false csA i _ ?_ rfl
        rw [hcsA, Function.update_noteq (fun h => him h.symm)]
        exact hcar
      have hcarryA : carryCount csA ≤ carryCount acc.1 + 1 := by
        by_cases hm : (acc.1 m).has_carrot = true
        · have heq : carryCount csA = carryCount acc.1 :=
            carryCount_update_congr acc.1 m _ hm.symm
          omega
        · have heq : carryCount csA = carryCount acc.1 + 1 :=
            carryCount_update_true acc.1 m _ (by revert hm; cases (acc.1 m).has_carrot <;> simp) rfl
          omega
      omega
    · simp only [if_neg hcar, Function.update_same]
      have hcarry : carryCount (Function.update acc.1 i
          { symbol := (acc.1 i).symbol, x := (acc.1 i).x, y := (acc.1 i).y,
            has_carrot := (acc.1 i).has_carrot, alive := false, id := (acc.1 i).id }) =
          carryCount acc.1 := carryCount_update_congr acc.1 i _ rfl
      omega
  · rw [if_neg hc]

theorem elimFold_carry_le (m : Fin 4) (cid : Nat) (nx ny : Int) (l : List (Fin 4))
    (acc : (Fin 4 → Character) × Board × List Event) (hcid : cid = m.val) :
    carryCount (l.foldl (elim_iter m cid nx ny) acc).1 ≤ carryCount acc.1 := by
  induction l generalizing acc with
  | nil => exact le_rfl
  | cons c l ih =>
      rw [List.foldl_cons]
      exact (ih _).trans (elim_iter_carry_le m cid nx ny acc c hcid)

/-! ## Lemmas about the elimination phase -/

theorem elimPhase_static (s : GameState) (m d : Fin 4) (j : Fin 4) :
    ((elimPhase s m d).1 j).symbol = (s.characters j).symbol ∧
    ((elimPhase s m d).1 j).id = (s.characters j).id ∧
    ((elimPhase s m d).1 j).x = (s.characters j).x ∧
    ((elimPhase s m d).1 j).y = (s.characters j).y := by
  unfold elimPhase
  split_ifs with h
  · exact elimFold_static _ _ _ _ _ _ j
  · exact ⟨rfl, rfl, rfl, rfl⟩

theorem elimPhase_alive_le (s : GameState) (m d : Fin 4) (j : Fin 4)
    (h : ((elimPhase s m d).1 j).alive = true) : (s.characters j).alive = true := by
  revert h
  unfold elimPhase
  split_ifs with hs
  · exact elimFold_alive_le _ _ _ _ _ _ j
  · exact fun h => h

theorem elimPhase_mover_carrot (s : GameState) (m d : Fin 4)
    (hcid : (s.characters m).id = m.val) (h : (s.characters m).has_carrot = true) :
    ((elimPhase s m d).1 m).has_carrot = true := by
  unfold elimPhase
  split_ifs with hs
  · exact elimFold_mover_carrot _ _ _ _ _ _ hcid h
  · exact h

theorem elimPhase_mover_alive (s : GameState) (m d : Fin 4)
    (hcid : (s.characters m).id = m.val) :
    ((elimPhase s m d).1 m).alive = (s.characters m).alive := by
  unfold elimPhase
  split_ifs with hs
  · exact elimFold_mover_alive _ _ _ _ _ _ hcid
  · rfl

theorem elimPhase_board_dot (s : GameState) (m d : Fin 4) (x y : Int) :
    (elimPhase s m d).2.1 x y = clearedBoard s m x y ∨ (elimPhase s m d).2.1 x y = '.' := by
  unfold elimPhase
  split_ifs with hs
  · exact elimFold_board_dot _ _ _ _ _ _ x y
  · left; rfl

theorem elimPhase_log_mono (s : GameState) (m d : Fin 4) (e : Event)
    (h : e ∈ s.log) : e ∈ (elimPhase s m d).2.2 := by
  unfold elimPhase
  split_ifs with hs
  · exact elimFold_log_mono _ _ _ _ _ _ e h
  · exact h

theorem elimPhase_log_mtn (s : GameState) (m d : Fin 4) :
    mtnCount (elimPhase s m d).2.2 = mtnCount s.log := by
  unfold elimPhase
  split_ifs with hs
  · exact elimFold_log_mtn _ _ _ _ _ _
  · rfl

theorem elimPhase_sum_le (s : GameState) (m d : Fin 4)
    (hcid : (s.characters m).id = m.val) :
    countC (elimPhase s m d).2.1 + carryCount (elimPhase s m d).1 ≤
      countC (clearedBoard s m) + carryCount s.characters := by
  unfold elimPhase
  split_ifs with hs
  · exact elimFold_sum_le _ _ _ _ _ _ hcid
  · exact le_rfl

theorem elimPhase_carry_le (s : GameState) (m d : Fin 4)
    (hcid : (s.characters m).id = m.val) :
    carryCount (elimPhase s m d).1 ≤ carryCount s.characters := by
  unfold elimPhase
  split_ifs with hs
  · exact elimFold_carry_le _ _ _ _ _ _ hcid
  · exact le_rfl

theorem elimPhase_R (s : GameState) (m d : Fin 4) (j : Fin 4) (hjm : j ≠ m)
    (sym : Char) (hsym : sym ≠ '.')
    (hR : ∀ x y : Int, clearedBoard s m x y = sym →
      (s.characters j).alive = true ∧ x = (s.characters j).x ∧ y = (s.characters j).y) :
    ∀ x y : Int, (elimPhase s m d).2.1 x y = sym →
      ((elimPhase s m d).1 j).alive = true ∧
      x = ((elimPhase s m d).1 j).x ∧ y = ((elimPhase s m d).1 j).y := by
  unfold elimPhase
  split_ifs with hs
  · exact elimFold_R _ _ _ _ _ _ j hjm sym hsym hR
  · exact hR

theorem elimPhase_process (s : GameState) (m d : Fin 4) (j : Fin 4) (hjm : j ≠ m)
    (hsymM : (s.characters m).symbol = 'M') (hcid : (s.characters m).id = m.val)
    (halive : (s.characters j).alive = true)
    (hx : (s.characters j).x = (candCell s m d).1) (hy : (s.characters j).y = (candCell s m d).2) :
    ((elimPhase s m d).1 j).alive = false ∧
    ((elimPhase s m d).1 j).has_carrot = false ∧
    ((s.characters j).has_carrot = true →
      Event.stole (s.characters j).symbol ∈ (elimPhase s m d).2.2 ∧
      ((elimPhase s m d).1 m).has_carrot = true) := by
  unfold elimPhase
  rw [if_pos hsymM]
  exact elimFold_process _ _ _ _ _ _ j (List.nodup_finRange 4) (List.mem_finRange j) hjm
    hcid halive hx hy

/-! ## Lemmas about the cleared board and the time machine -/

theorem clearedBoard_dot (s : GameState) (m : Fin 4) (x y : Int) :
    clearedBoard s m x y = s.board x y ∨ clearedBoard s m x y = '.' := by
  unfold clearedBoard
  split_ifs with h
  · rw [setCell_apply]
    split_ifs <;> simp
  · left; rfl

theorem clearedBoard_of_ne_dot (s : GameState) (m : Fin 4) (x y : Int) (c : Char)
    (hc : c ≠ '.') (h : clearedBoard s m x y = c) : s.board x y = c := by
  rcases clearedBoard_dot s m x y with h2 | h2
  · rw [← h2]; exact h
  · rw [h2] at h; exact absurd h.symm hc

theorem clearedBoard_countC_le (s : GameState) (m : Fin 4) :
    countC (clearedBoard s m) ≤ countC s.board := by
  refine countC_mono _ _ ?_
  intro x y _ h
  exact clearedBoard_of_ne_dot s m x y 'C' (by decide) h

theorem findF_fold_spec (b : Board) (l : List Nat) (acc : Int × Int)
    (hacc : acc = (-1, -1) ∨ b acc.1 acc.2 = 'F') :
    (l.foldl
      (fun (acc : Int × Int) (i : Nat) =>
        match (List.range 5).find? (fun (j : Nat) => b (Int.ofNat i) (Int.ofNat j) = 'F') with
        | some j => (Int.ofNat i, Int.ofNat j)
        | none => acc)
      acc) = (-1, -1) ∨
    b (l.foldl
      (fun (acc : Int × Int) (i : Nat) =>
        match (List.range 5).find? (fun (j : Nat) => b (Int.ofNat i) (Int.ofNat j) = 'F') with
        | some j => (Int.ofNat i, Int.ofNat j)
        | none => acc)
      acc).1
      (l.foldl
      (fun (acc : Int × Int) (i : Nat) =>
        match (List.range 5).find? (fun (j : Nat) => b (Int.ofNat i) (Int.ofNat j) = 'F') with
        | some j => (Int.ofNat i, Int.ofNat j)
        | none => acc)
      acc).2 = 'F' := by
  induction l generalizing acc with
  | nil => exact hacc
  | cons i l ih =>
      rw [List.foldl_cons]
      refine ih _ ?_
      cases hfind : (List.range 5).find? (fun (j : Nat) => b (Int.ofNat i) (Int.ofNat j) = 'F') with
      | none => simpa [hfind] using hacc
      | some j =>
          right
          have hj := List.find?_some hfind
          simp only [hfind]
          simpa using hj

theorem findF_spec (b : Board) :
    findF b = (-1, -1) ∨ b (findF b).1 (findF b).2 = 'F' := by
  unfold findF
  exact findF_fold_spec b (List.range 5) (-1, -1) (Or.inl rfl)

theorem move_mountain_characters (s : GameState) (dr : List (Fin 5 × Fin 5)) :
    (move_mountain s dr).characters = s.characters := by
  unfold move_mountain
  cases dr.find? (fun p => s.board (p.1.val : Int) (p.2.val : Int) = '.') <;> rfl

theorem move_mountain_carrots (s : GameState) (dr : List (Fin 5 × Fin 5)) :
    (move_mountain s dr).carrots_placed = s.carrots_placed := by
  unfold move_mountain
  cases dr.find? (fun p => s.board (p.1.val : Int) (p.2.val : Int) = '.') <;> rfl

theorem move_mountain_go (s : GameState) (dr : List (Fin 5 × Fin 5)) :
    (move_mountain s dr).game_over = s.game_over := by
  unfold move_mountain
  cases dr.find? (fun p => s.board (p.1.val : Int) (p.2.val : Int) = '.') <;> rfl

theorem move_mountain_step_count (s : GameState) (dr : List (Fin 5 × Fin 5)) :
    (move_mountain s dr).step_count = s.step_count := by
  unfold move_mountain
  cases dr.find? (fun p => s.board (p.1.val : Int) (p.2.val : Int) = '.') <;> rfl

/-- Every write of the time machine is `'.'` or `'F'`. -/
theorem move_mountain_board_of_ne (s : GameState) (dr : List (Fin 5 × Fin 5))
    (x y : Int) (c : Char) (hcF : c ≠ 'F') (hcd : c ≠ '.')
    (h : (move_mountain s dr).board x y = c) : s.board x y = c := by
  revert h
  unfold move_mountain
  cases dr.find? (fun p => s.board (p.1.val : Int) (p.2.val : Int) = '.') with
  | none => exact fun h => h
  | some p =>
      simp only
      rw [setCell_apply, setCell_apply]
      split_ifs with h1 h2
      · exact fun h => absurd h.symm hcF
      · exact fun h => absurd h.symm hcd
      · exact fun h => h

/-- An in-range cell that holds neither `'F'` nor `'.'` is untouched by
the time machine. -/
theorem move_mountain_keep (s : GameState) (dr : List (Fin 5 × Fin 5)) (x y : Int)
    (hin : InRange x y) (hF : s.board x y ≠ 'F') (hd : s.board x y ≠ '.') :
    (move_mountain s dr).board x y = s.board x y := by
  unfold move_mountain
  cases hfind : dr.find? (fun p => s.board (p.1.val : Int) (p.2.val : Int) = '.') with
  | none => rfl
  | some p =>
      simp only
      have hp := List.find?_some hfind
      have hpd : s.board (p.1.val : Int) (p.2.val : Int) = '.' := by simpa using hp
      rw [setCell_apply, setCell_apply]
      have hxyp : ¬(x = (p.1.val : Int) ∧ y = (p.2.val : Int)) := by
        rintro ⟨rfl, rfl⟩
        exact hd hpd
      rw [if_neg hxyp]
      rcases findF_spec s.board with hold | hold
      · have hne : ¬(x = (findF s.board).1 ∧ y = (findF s.board).2) := by
          rw [hold]
          rintro ⟨hx1, hy1⟩
          simp only at hx1
          obtain ⟨hx0, _, _, _⟩ := hin
          omega
        rw [if_neg hne]
      · have hne : ¬(x = (findF s.board).1 ∧ y = (findF s.board).2) := by
          rintro ⟨rfl, rfl⟩
          exact hF hold
        rw [if_neg hne]

theorem move_mountain_countC_le (s : GameState) (dr : List (Fin 5 × Fin 5)) :
    countC (move_mountain s dr).board ≤ countC s.board := by
  refine countC_mono _ _ ?_
  intro x y _ h
  exact move_mountain_board_of_ne s dr x y 'C' (by decide) (by decide) h

theorem move_mountain_log_mono (s : GameState) (dr : List (Fin 5 × Fin 5)) (e : Event)
    (h : e ∈ s.log) : e ∈ (move_mountain s dr).log := by
  revert h
  unfold move_mountain
  cases dr.find? (fun p => s.board (p.1.val : Int) (p.2.val : Int) = '.') with
  | none => exact fun h => h
  | some p => simp only; intro h; simp [h]

theorem move_mountain_log_mtn (s : GameState) (dr : List (Fin 5 × Fin 5)) :
    mtnCount (move_mountain s dr).log = mtnCount s.log +
      (if (dr.find? (fun p => s.board (p.1.val : Int) (p.2.val : Int) = '.')).isSome
        then 1 else 0) := by
  unfold move_mountain
  cases hfind : dr.find? (fun p => s.board (p.1.val : Int) (p.2.val : Int) = '.') with
  | none => simp
  | some p => simp [mtnCount, List.countP_append, isMountainEvent]

theorem move_mountain_success (s : GameState) (dr : List (Fin 5 × Fin 5)) (p : Fin 5 × Fin 5)
    (hfind : dr.find? (fun q => s.board (q.1.val : Int) (q.2.val : Int) = '.') = some p) :
    (move_mountain s dr).board (p.1.val : Int) (p.2.val : Int) = 'F' ∧
    Event.mountainMoved (p.1.val : Int) (p.2.val : Int) ∈ (move_mountain s dr).log := by
  unfold move_mountain
  rw [hfind]
  exact ⟨setCell_self _ _ _ _, by simp⟩

/-! ## Lemmas about the move phase -/

theorem movePhase_counters (t : GameState) (m d : Fin 4) :
    (movePhase t m d).step_count = t.step_count ∧
    (movePhase t m d).cycle_count = t.cycle_count := ⟨rfl, rfl⟩


theorem afterPickup_ne (t : GameState) (m d : Fin 4) (j : Fin 4) (hjm : j ≠ m) :
    (afterPickup t m d).1 j = (elimPhase t m d).1 j := by
  unfold afterPickup
  split_ifs with h
  · exact Function.update_noteq hjm _ _
  · rfl

theorem afterPickup_m_static (t : GameState) (m d : Fin 4) :
    ((afterPickup t m d).1 m).symbol = ((elimPhase t m d).1 m).symbol ∧
    ((afterPickup t m d).1 m).id = ((elimPhase t m d).1 m).id ∧
    ((afterPickup t m d).1 m).x = ((elimPhase t m d).1 m).x ∧
    ((afterPickup t m d).1 m).y = ((elimPhase t m d).1 m).y ∧
    ((afterPickup t m d).1 m).alive = ((elimPhase t m d).1 m).alive := by
  unfold afterPickup
  split_ifs with h
  · simp [Function.update_same]
  · exact ⟨rfl, rfl, rfl, rfl, rfl⟩

theorem afterPickup_carry (t : GameState) (m d : Fin 4) :
    carryCount (afterPickup t m d).1 =
      carryCount (elimPhase t m d).1 + (if pickupCond t m d then 1 else 0) := by
  unfold afterPickup
  split_ifs with h
  · exact carryCount_update_true _ m _ h.2 rfl
  · simp

theorem afterPickup_log_mono (t : GameState) (m d : Fin 4) (e : Event)
    (h : e ∈ (elimPhase t m d).2.2) : e ∈ (afterPickup t m d).2 := by
  unfold afterPickup
  split_ifs with hp
  · simp [h]
  · exact h

theorem afterPickup_log_mtn (t : GameState) (m d : Fin 4) :
    mtnCount (afterPickup t m d).2 = mtnCount (elimPhase t m d).2.2 := by
  unfold afterPickup
  split_ifs with hp
  · simp [mtnCount, List.countP_append, isMountainEvent]
  · rfl

theorem afterDeliver_ne (t : GameState) (m d : Fin 4) (j : Fin 4) (hjm : j ≠ m) :
    (afterDeliver t m d).1 j = (afterPickup t m d).1 j := by
  unfold afterDeliver
  by_cases h : deliverCond t m d
  · rw [if_pos h]
    exact Function.update_noteq hjm _ _
  · rw [if_neg h]

theorem afterDeliver_m_static (t : GameState) (m d : Fin 4) :
    ((afterDeliver t m d).1 m).symbol = ((afterPickup t m d).1 m).symbol ∧
    ((afterDeliver t m d).1 m).id = ((afterPickup t m d).1 m).id ∧
    ((afterDeliver t m d).1 m).x = ((afterPickup t m d).1 m).x ∧
    ((afterDeliver t m d).1 m).y = ((afterPickup t m d).1 m).y ∧
    ((afterDeliver t m d).1 m).alive = ((afterPickup t m d).1 m).alive := by
  unfold afterDeliver
  by_cases h : deliverCond t m d
  · rw [if_pos h]
    simp [Function.update_same]
  · rw [if_neg h]
    exact ⟨rfl, rfl, rfl, rfl, rfl⟩

theorem afterDeliver_carry (t : GameState) (m d : Fin 4) :
    carryCount (afterDeliver t m d).1 + (if deliverCond t m d then 1 else 0) =
      carryCount (afterPickup t m d).1 := by
  unfold afterDeliver
  by_cases h : deliverCond t m d
  · rw [if_pos h]
    simp only [if_pos h]
    exact carryCount_update_false _ m _ h.2 rfl
  · rw [if_neg h]
    simp [h]

theorem afterDeliver_placed (t : GameState) (m d : Fin 4) :
    (afterDeliver t m d).2.1 =
      t.carrots_placed + (if deliverCond t m d then 1 else 0) := by
  unfold afterDeliver
  by_cases h : deliverCond t m d
  · rw [if_pos h]
    simp [h]
  · rw [if_neg h]
    simp [h]

theorem afterDeliver_go (t : GameState) (m d : Fin 4) :
    (afterDeliver t m d).2.2.1 =
      if deliverCond t m d ∧ t.carrots_placed + 1 = 2 then true else t.game_over := by
  unfold afterDeliver
  by_cases h : deliverCond t m d
  · rw [if_pos h]
    by_cases h2 : t.carrots_placed + 1 = 2 <;> simp [h, h2]
  · rw [if_neg h]
    simp [h]

theorem afterDeliver_log_mono (t : GameState) (m d : Fin 4) (e : Event)
    (h : e ∈ (afterPickup t m d).2) : e ∈ (afterDeliver t m d).2.2.2 := by
  unfold afterDeliver
  by_cases hp : deliverCond t m d
  · rw [if_pos hp]
    simp [h]
  · rw [if_neg hp]
    exact h

theorem afterDeliver_log_mtn (t : GameState) (m d : Fin 4) :
    mtnCount (afterDeliver t m d).2.2.2 = mtnCount (afterPickup t m d).2 := by
  unfold afterDeliver
  by_cases hp : deliverCond t m d
  · rw [if_pos hp]
    by_cases h2 : t.carrots_placed + 1 = 2 <;>
      simp [h2, mtnCount, List.countP_append, isMountainEvent]
  · rw [if_neg hp]

theorem movePhase_char_ne (t : GameState) (m d : Fin 4) (j : Fin 4) (hjm : j ≠ m) :
    (movePhase t m d).characters j = (elimPhase t m d).1 j := by
  show (Function.update (afterDeliver t m d).1 m _) j = _
  rw [Function.update_noteq hjm, afterDeliver_ne t m d j hjm, afterPickup_ne t m d j hjm]

theorem movePhase_char_m (t : GameState) (m d : Fin 4) :
    (movePhase t m d).characters m =
      { (afterDeliver t m d).1 m with x := (finalCell t m d).1, y := (finalCell t m d).2 } := by
  show (Function.update (afterDeliver t m d).1 m _) m = _
  rw [Function.update_same]

theorem movePhase_board_eq (t : GameState) (m d : Fin 4) :
    (movePhase t m d).board =
      setCell (elimPhase t m d).2.1 (finalCell t m d).1 (finalCell t m d).2
        (t.characters m).symbol := rfl

theorem movePhase_static (t : GameState) (m d : Fin 4) (j : Fin 4) :
    ((movePhase t m d).characters j).symbol = (t.characters j).symbol ∧
    ((movePhase t m d).characters j).id = (t.characters j).id := by
  have hst := elimPhase_static t m d j
  by_cases hjm : j = m
  · subst hjm
    rw [movePhase_char_m]
    have h1 := afterDeliver_m_static t j d
    have h2 := afterPickup_m_static t j d
    constructor
    · show ((afterDeliver t j d).1 j).symbol = _
      rw [h1.1, h2.1, hst.1]
    · show ((afterDeliver t j d).1 j).id = _
      rw [h1.2.1, h2.2.1, hst.2.1]
  · rw [movePhase_char_ne t m d j hjm]
    exact ⟨hst.1, hst.2.1⟩

theorem movePhase_pos_ne (t : GameState) (m d : Fin 4) (j : Fin 4) (hjm : j ≠ m) :
    ((movePhase t m d).characters j).x = (t.characters j).x ∧
    ((movePhase t m d).characters j).y = (t.characters j).y := by
  rw [movePhase_char_ne t m d j hjm]
  exact ⟨(elimPhase_static t m d j).2.2.1, (elimPhase_static t m d j).2.2.2⟩

theorem movePhase_mover_pos (t : GameState) (m d : Fin 4) :
    ((movePhase t m d).characters m).x = (finalCell t m d).1 ∧
    ((movePhase t m d).characters m).y = (finalCell t m d).2 := by
  rw [movePhase_char_m]
  exact ⟨rfl, rfl⟩

theorem movePhase_alive_le (t : GameState) (m d : Fin 4) (j : Fin 4)
    (h : ((movePhase t m d).characters j).alive = true) : (t.characters j).alive = true := by
  by_cases hjm : j = m
  · subst hjm
    rw [movePhase_char_m] at h
    have h1 := afterDeliver_m_static t j d
    have h2 := afterPickup_m_static t j d
    have halj : ((afterDeliver t j d).1 j).alive = true := h
    rw [h1.2.2.2.2, h2.2.2.2.2] at halj
    exact elimPhase_alive_le t j d j halj
  · rw [movePhase_char_ne t m d j hjm] at h
    exact elimPhase_alive_le t m d j h

theorem movePhase_mover_alive (t : GameState) (m d : Fin 4)
    (hcid : (t.characters m).id = m.val) :
    ((movePhase t m d).characters m).alive = (t.characters m).alive := by
  rw [movePhase_char_m]
  show ((afterDeliver t m d).1 m).alive = _
  rw [(afterDeliver_m_static t m d).2.2.2.2, (afterPickup_m_static t m d).2.2.2.2,
    elimPhase_mover_alive t m d hcid]

theorem movePhase_counters2 (t : GameState) (m d : Fin 4) :
    (movePhase t m d).step_count = t.step_count ∧
    (movePhase t m d).cycle_count = t.cycle_count := ⟨rfl, rfl⟩

theorem movePhase_placed (t : GameState) (m d : Fin 4) :
    (movePhase t m d).carrots_placed =
      t.carrots_placed + (if deliverCond t m d then 1 else 0) :=
  afterDeliver_placed t m d

theorem movePhase_go (t : GameState) (m d : Fin 4) :
    (movePhase t m d).game_over =
      if deliverCond t m d ∧ t.carrots_placed + 1 = 2 then true else t.game_over :=
  afterDeliver_go t m d

theorem movePhase_log_mono (t : GameState) (m d : Fin 4) (e : Event)
    (h : e ∈ t.log) : e ∈ (movePhase t m d).log :=
  afterDeliver_log_mono t m d e (afterPickup_log_mono t m d e (elimPhase_log_mono t m d e h))

theorem movePhase_log_mtn (t : GameState) (m d : Fin 4) :
    mtnCount (movePhase t m d).log = mtnCount t.log := by
  show mtnCount (afterDeliver t m d).2.2.2 = _
  rw [afterDeliver_log_mtn, afterPickup_log_mtn, elimPhase_log_mtn]

theorem is_valid_iff (x y : Int) : is_valid x y = true ↔ InRange x y := by
  simp [is_valid, InRange]

theorem candCell_inRange (t : GameState) (m d : Fin 4)
    (h : InRange (t.characters m).x (t.characters m).y) :
    InRange (candCell t m d).1 (candCell t m d).2 := by
  cases hv : is_valid ((t.characters m).x + dx d) ((t.characters m).y + dy d) with
  | false =>
      have hc : candCell t m d = ((t.characters m).x, (t.characters m).y) := by
        unfold candCell
        simp [hv]
      rw [hc]
      exact h
  | true =>
      have hc : candCell t m d =
          ((t.characters m).x + dx d, (t.characters m).y + dy d) := by
        unfold candCell
        simp [hv]
      rw [hc]
      exact (is_valid_iff _ _).mp hv

theorem finalCell_inRange (t : GameState) (m d : Fin 4)
    (h : InRange (t.characters m).x (t.characters m).y) :
    InRange (finalCell t m d).1 (finalCell t m d).2 := by
  unfold finalCell
  split_ifs with hv
  · exact h
  · exact candCell_inRange t m d h

theorem movePhase_pointwiseC (t : GameState) (m d : Fin 4)
    (hsym : (t.characters m).symbol ≠ 'C') (x y : Int)
    (h : (movePhase t m d).board x y = 'C') : t.board x y = 'C' := by
  rw [movePhase_board_eq, setCell_apply] at h
  split_ifs at h with hxy
  · exact absurd h.symm (by exact fun hc => hsym hc.symm)
  · rcases elimPhase_board_dot t m d x y with h2 | h2
    · rw [h] at h2
      exact clearedBoard_of_ne_dot t m x y 'C' (by decide) h2.symm
    · rw [h2] at h
      exact absurd h (by decide)

/-- Symbol-location tracking through the move phase, for a non-mover. -/
theorem movePhase_track_ne (t : GameState) (m d : Fin 4) (j : Fin 4) (hjm : j ≠ m)
    (hdot : (t.characters j).symbol ≠ '.')
    (hms : (t.characters j).symbol ≠ (t.characters m).symbol)
    (huniq : ∀ x y : Int, t.board x y = (t.characters j).symbol →
      (t.characters j).alive = true ∧ x = (t.characters j).x ∧ y = (t.characters j).y) :
    ∀ x y : Int, (movePhase t m d).board x y = (t.characters j).symbol →
      ((movePhase t m d).characters j).alive = true ∧
      x = ((movePhase t m d).characters j).x ∧ y = ((movePhase t m d).characters j).y := by
  intro x y h
  rw [movePhase_board_eq, setCell_apply] at h
  split_ifs at h with hxy
  · exact absurd h.symm hms
  · have hR : ∀ u v : Int, clearedBoard t m u v = (t.characters j).symbol →
        (t.characters j).alive = true ∧ u = (t.characters j).x ∧ v = (t.characters j).y := by
      intro u v hub
      exact huniq u v (clearedBoard_of_ne_dot t m u v _ hdot hub)
    have he := elimPhase_R t m d j hjm (t.characters j).symbol hdot hR x y h
    rw [movePhase_char_ne t m d j hjm]
    exact he

/-- Symbol-location tracking through the move phase, for the mover. -/
theorem movePhase_track_m (t : GameState) (m d : Fin 4)
    (hdot : (t.characters m).symbol ≠ '.')
    (huniq : ∀ x y : Int, t.board x y = (t.characters m).symbol →
      x = (t.characters m).x ∧ y = (t.characters m).y) :
    ∀ x y : Int, (movePhase t m d).board x y = (t.characters m).symbol →
      x = ((movePhase t m d).characters m).x ∧ y = ((movePhase t m d).characters m).y := by
  intro x y h
  rw [movePhase_board_eq, setCell_apply] at h
  rw [(movePhase_mover_pos t m d).1, (movePhase_mover_pos t m d).2]
  split_ifs at h with hxy
  · exact hxy
  · exfalso
    rcases elimPhase_board_dot t m d x y with h2 | h2
    · rw [h] at h2
      have hb := clearedBoard_of_ne_dot t m x y _ hdot h2.symm
      have hpos := huniq x y hb
      -- so (x,y) is the mover's cell; but the cleared board there is not the symbol
      unfold clearedBoard at h2
      split_ifs at h2 with hcl
      · rw [hpos.1, hpos.2] at h2
        rw [setCell_self] at h2
        exact hdot h2
      · rw [hpos.1, hpos.2] at hb
        exact hcl hb
    · rw [h2] at h
      exact hdot h.symm

theorem movePhase_sum_le (t : GameState) (m d : Fin 4)
    (hcid : (t.characters m).id = m.val) (hsym : (t.characters m).symbol ≠ 'C')
    (hrange : InRange (t.characters m).x (t.characters m).y) :
    itemSum (movePhase t m d) ≤ itemSum t := by
  have hcarry4 : carryCount (movePhase t m d).characters = carryCount (afterDeliver t m d).1 := by
    refine carryCount_update_congr _ m _ rfl
  have hAD := afterDeliver_carry t m d
  have hAP := afterPickup_carry t m d
  have hEc := elimPhase_carry_le t m d hcid
  have hEs := elimPhase_sum_le t m d hcid
  have hclr := clearedBoard_countC_le t m
  have hplaced := movePhase_placed t m d
  unfold itemSum
  rw [hcarry4, hplaced]
  by_cases hp : pickupCond t m d
  · -- a carrot is picked up: the candidate cell loses its `'C'`
    have hnoveto : ¬vetoCond t m d := by
      intro hv
      have h1 : candTarget t m d = 'F' := hv.1
      have h2 : candTarget t m d = 'C' := hp.1
      rw [h1] at h2
      exact absurd h2 (by decide)
    have hfc : finalCell t m d = candCell t m d := by
      unfold finalCell
      rw [if_neg hnoveto]
    have hcin := candCell_inRange t m d hrange
    have hC1 : clearedBoard t m (candCell t m d).1 (candCell t m d).2 = 'C' := hp.1
    have hC3 : (movePhase t m d).board (candCell t m d).1 (candCell t m d).2 ≠ 'C' := by
      rw [movePhase_board_eq, hfc, setCell_self]
      exact hsym
    have hsub : ∀ u v : Int, InRange u v → (movePhase t m d).board u v = 'C' →
        clearedBoard t m u v = 'C' := by
      intro u v _ hb
      rw [movePhase_board_eq, setCell_apply] at hb
      split_ifs at hb with huv
      · exact absurd hb.symm (fun hc => hsym hc.symm)
      · rcases elimPhase_board_dot t m d u v with h2 | h2
        · rw [← h2]; exact hb
        · rw [h2] at hb
          exact absurd hb (by decide)
    have hdrop := countC_succ_le (clearedBoard t m) (movePhase t m d).board
      (candCell t m d).1 (candCell t m d).2 hcin hC1 hC3 hsub
    have hite : (if pickupCond t m d then 1 else 0) = 1 := if_pos hp
    rw [hite] at hAP
    omega
  · -- no pickup: every phase is non-increasing
    have hb3 : countC (movePhase t m d).board ≤ countC (elimPhase t m d).2.1 := by
      rw [movePhase_board_eq]
      exact countC_setCell_le _ _ _ _ hsym
    have hite : (if pickupCond t m d then 1 else 0) = 0 := if_neg hp
    rw [hite] at hAP
    omega

/-! ## Lemmas about the counters, the cap branch and `step` -/

theorem bump_fields (s : GameState) :
    (bumpCounters s).board = s.board ∧ (bumpCounters s).characters = s.characters ∧
    (bumpCounters s).carrots_placed = s.carrots_placed ∧
    (bumpCounters s).game_over = s.game_over ∧
    (bumpCounters s).step_count = s.step_count + 1 ∧
    (bumpCounters s).cycle_count = s.cycle_count + 1 ∧
    (bumpCounters s).log = s.log :=
  ⟨rfl, rfl, rfl, rfl, rfl, rfl, rfl⟩

theorem firstAlive_isSome (cs : Fin 4 → Character) (m : Fin 4)
    (h : (cs m).alive = true) : ∃ i, firstAlive cs = some i := by
  cases hfa : firstAlive cs with
  | some i => exact ⟨i, rfl⟩
  | none =>
      exfalso
      have := List.find?_eq_none.mp hfa m (List.mem_finRange m)
      simp [h] at this

theorem capBranch_of_some (s : GameState) (i : Fin 4)
    (h : firstAlive s.characters = some i) :
    capBranch s =
      { s with game_over := true
               log := s.log ++ [Event.maxStepsWinner (s.characters i).symbol] } := by
  unfold capBranch
  rw [h]

theorem capBranch_static (s : GameState) :
    (capBranch s).board = s.board ∧ (capBranch s).characters = s.characters ∧
    (capBranch s).carrots_placed = s.carrots_placed ∧
    (capBranch s).step_count = s.step_count ∧
    (capBranch s).cycle_count = s.cycle_count := by
  unfold capBranch
  cases firstAlive s.characters <;> exact ⟨rfl, rfl, rfl, rfl, rfl⟩

theorem capBranch_itemSum (s : GameState) : itemSum (capBranch s) = itemSum s := by
  have h := capBranch_static s
  unfold itemSum
  rw [h.1, h.2.1, h.2.2.1]

theorem capBranch_log_mtn (s : GameState) : mtnCount (capBranch s).log = mtnCount s.log := by
  unfold capBranch
  cases firstAlive s.characters with
  | none => rfl
  | some i => simp [mtnCount, List.countP_append, isMountainEvent]

theorem step_of_guard (s : GameState) (m d : Fin 4) (dr : List (Fin 5 × Fin 5))
    (h : (!(s.characters m).alive || s.game_over) = true) : step s m d dr = s := by
  unfold step
  rw [if_pos h]

theorem step_of_dead (s : GameState) (m d : Fin 4) (dr : List (Fin 5 × Fin 5))
    (h : (s.characters m).alive = false) : step s m d dr = s := by
  refine step_of_guard s m d dr ?_
  rw [h]
  rfl

theorem step_of_over (s : GameState) (m d : Fin 4) (dr : List (Fin 5 × Fin 5))
    (h : s.game_over = true) : step s m d dr = s := by
  refine step_of_guard s m d dr ?_
  rw [h]
  simp

theorem step_of_cap (s : GameState) (m d : Fin 4) (dr : List (Fin 5 × Fin 5))
    (ha : (s.characters m).alive = true) (hg : s.game_over = false)
    (hcap : 100 ≤ s.step_count + 1) : step s m d dr = capBranch (bumpCounters s) := by
  unfold step
  rw [ha, hg]
  rw [if_neg (by simp), if_pos hcap]

theorem step_of_move (s : GameState) (m d : Fin 4) (dr : List (Fin 5 × Fin 5))
    (ha : (s.characters m).alive = true) (hg : s.game_over = false)
    (hlt : s.step_count + 1 < 100) :
    step s m d dr =
      if (s.cycle_count + 1) % 3 = 0 ∧ (s.characters m).symbol = 'M' then
        move_mountain (movePhase (bumpCounters s) m d) dr
      else movePhase (bumpCounters s) m d := by
  unfold step
  rw [ha, hg]
  rw [if_neg (by simp), if_neg (by omega)]

/-! ## Well-formedness of initial states -/

theorem setCell_eq_cases (b : Board) (u v x y : Int) (ch c : Char)
    (h : setCell b u v ch x y = c) : (x = u ∧ y = v ∧ c = ch) ∨ b x y = c := by
  rw [setCell_apply] at h
  split_ifs at h with hxy
  · exact Or.inl ⟨hxy.1, hxy.2, h.symm⟩
  · exact Or.inr h

theorem place_spec (b : Board) (draws : List (Fin 5 × Fin 5)) (ch : Char)
    (r : Board × Int × Int) (h : place b draws ch = some r) :
    r.1 = setCell b r.2.1 r.2.2 ch ∧ b r.2.1 r.2.2 = '.' ∧ InRange r.2.1 r.2.2 := by
  unfold place at h
  rw [Option.map_eq_some'] at h
  obtain ⟨p, hfind, hr⟩ := h
  have hpred := List.find?_some hfind
  have hdot : b (p.1.val : Int) (p.2.val : Int) = '.' := by simpa using hpred
  rw [← hr]
  refine ⟨rfl, hdot, ?_, ?_, ?_, ?_⟩
  · exact Int.natCast_nonneg _
  · show ((p.1.val : Nat) : Int) < 5
    exact_mod_cast p.1.isLt
  · exact Int.natCast_nonneg _
  · show ((p.2.val : Nat) : Int) < 5
    exact_mod_cast p.2.isLt

theorem WF_init (fD c1D c2D bD dD tD mD : List (Fin 5 × Fin 5)) (s : GameState)
    (h : init_board fD c1D c2D bD dD tD mD = some s) : WF s := by
  unfold init_board at h
  rw [Option.bind_eq_some] at h
  obtain ⟨rF, hF, h⟩ := h
  rw [Option.bind_eq_some] at h
  obtain ⟨rC1, hC1, h⟩ := h
  rw [Option.bind_eq_some] at h
  obtain ⟨rC2, hC2, h⟩ := h
  rw [Option.bind_eq_some] at h
  obtain ⟨rB, hB, h⟩ := h
  rw [Option.bind_eq_some] at h
  obtain ⟨rD, hD, h⟩ := h
  rw [Option.bind_eq_some] at h
  obtain ⟨rT, hT, h⟩ := h
  rw [Option.bind_eq_some] at h
  obtain ⟨rM, hM, h⟩ := h
  have hs := Option.some.inj h
  subst hs
  obtain ⟨hbF, hdF, hrF⟩ := place_spec _ _ _ _ hF
  obtain ⟨hbC1, hdC1, hrC1⟩ := place_spec _ _ _ _ hC1
  obtain ⟨hbC2, hdC2, hrC2⟩ := place_spec _ _ _ _ hC2
  obtain ⟨hbB, hdB, hrB⟩ := place_spec _ _ _ _ hB
  obtain ⟨hbD, hdD, hrD⟩ := place_spec _ _ _ _ hD
  obtain ⟨hbT, hdT, hrT⟩ := place_spec _ _ _ _ hT
  obtain ⟨hbM, hdM, hrM⟩ := place_spec _ _ _ _ hM
  -- persistence of the characters' symbols on the final board
  have persB1 : rB.1 rB.2.1 rB.2.2 = 'B' := by
    rw [hbB]; exact setCell_self _ _ _ _
  have persB2 : rD.1 rB.2.1 rB.2.2 = 'B' := by
    rw [hbD]
    rw [setCell_ne]
    · exact persB1
    · rintro ⟨e1, e2⟩
      rw [e1, e2, hdD] at persB1
      exact absurd persB1 (by decide)
  have persB3 : rT.1 rB.2.1 rB.2.2 = 'B' := by
    rw [hbT]
    rw [setCell_ne]
    · exact persB2
    · rintro ⟨e1, e2⟩
      rw [e1, e2, hdT] at persB2
      exact absurd persB2 (by decide)
  have persB4 : rM.1 rB.2.1 rB.2.2 = 'B' := by
    rw [hbM]
    rw [setCell_ne]
    · exact persB3
    · rintro ⟨e1, e2⟩
      rw [e1, e2, hdM] at persB3
      exact absurd persB3 (by decide)
  have persD1 : rD.1 rD.2.1 rD.2.2 = 'D' := by
    rw [hbD]; exact setCell_self _ _ _ _
  have persD2 : rT.1 rD.2.1 rD.2.2 = 'D' := by
    rw [hbT]
    rw [setCell_ne]
    · exact persD1
    · rintro ⟨e1, e2⟩
      rw [e1, e2, hdT] at persD1
      exact absurd persD1 (by decide)
  have persD3 : rM.1 rD.2.1 rD.2.2 = 'D' := by
    rw [hbM]
    rw [setCell_ne]
    · exact persD2
    · rintro ⟨e1, e2⟩
      rw [e1, e2, hdM] at persD2
      exact absurd persD2 (by decide)
  have persT1 : rT.1 rT.2.1 rT.2.2 = 'T' := by
    rw [hbT]; exact setCell_self _ _ _ _
  have persT2 : rM.1 rT.2.1 rT.2.2 = 'T' := by
    rw [hbM]
    rw [setCell_ne]
    · exact persT1
    · rintro ⟨e1, e2⟩
      rw [e1, e2, hdM] at persT1
      exact absurd persT1 (by decide)
  have persM1 : rM.1 rM.2.1 rM.2.2 = 'M' := by
    rw [hbM]; exact setCell_self _ _ _ _
  -- classification of symbol occurrences on the final board
  have classB : ∀ x y : Int, rM.1 x y = 'B' → x = rB.2.1 ∧ y = rB.2.2 := by
    intro x y hxy
    rw [hbM] at hxy
    rcases setCell_eq_cases _ _ _ _ _ _ _ hxy with ⟨_, _, habs⟩ | hxy
    · exact absurd habs (by decide)
    rw [hbT] at hxy
    rcases setCell_eq_cases _ _ _ _ _ _ _ hxy with ⟨_, _, habs⟩ | hxy
    · exact absurd habs (by decide)
    rw [hbD] at hxy
    rcases setCell_eq_cases _ _ _ _ _ _ _ hxy with ⟨_, _, habs⟩ | hxy
    · exact absurd habs (by decide)
    rw [hbB] at hxy
    rcases setCell_eq_cases _ _ _ _ _ _ _ hxy with ⟨h1, h2, _⟩ | hxy
    · exact ⟨h1, h2⟩
    rw [hbC2] at hxy
    rcases setCell_eq_cases _ _ _ _ _ _ _ hxy with ⟨_, _, habs⟩ | hxy
    · exact absurd habs (by decide)
    rw [hbC1] at hxy
    rcases setCell_eq_cases _ _ _ _ _ _ _ hxy with ⟨_, _, habs⟩ | hxy
    · exact absurd habs (by decide)
    rw [hbF] at hxy
    rcases setCell_eq_cases _ _ _ _ _ _ _ hxy with ⟨_, _, habs⟩ | hxy
    · exact absurd habs (by decide)
    exact absurd hxy (by decide)
  have classD : ∀ x y : Int, rM.1 x y = 'D' → x = rD.2.1 ∧ y = rD.2.2 := by
    intro x y hxy
    rw [hbM] at hxy
    rcases setCell_eq_cases _ _ _ _ _ _ _ hxy with ⟨_, _, habs⟩ | hxy
    · exact absurd habs (by decide)
    rw [hbT] at hxy
    rcases setCell_eq_cases _ _ _ _ _ _ _ hxy with ⟨_, _, habs⟩ | hxy
    · exact absurd habs (by decide)
    rw [hbD] at hxy
    rcases setCell_eq_cases _ _ _ _ _ _ _ hxy with ⟨h1, h2, _⟩ | hxy
    · exact ⟨h1, h2⟩
    rw [hbB] at hxy
    rcases setCell_eq_cases _ _ _ _ _ _ _ hxy with ⟨_, _, habs⟩ | hxy
    · exact absurd habs (by decide)
    rw [hbC2] at hxy
    rcases setCell_eq_cases _ _ _ _ _ _ _ hxy with ⟨_, _, habs⟩ | hxy
    · exact absurd habs (by decide)
    rw [hbC1] at hxy
    rcases setCell_eq_cases _ _ _ _ _ _ _ hxy with ⟨_, _, habs⟩ | hxy
    · exact absurd habs (by decide)
    rw [hbF] at hxy
    rcases setCell_eq_cases _ _ _ _ _ _ _ hxy with ⟨_, _, habs⟩ | hxy
    · exact absurd habs (by decide)
    exact absurd hxy (by decide)
  have classT : ∀ x y : Int, rM.1 x y = 'T' → x = rT.2.1 ∧ y = rT.2.2 := by
    intro x y hxy
    rw [hbM] at hxy
    rcases setCell_eq_cases _ _ _ _ _ _ _ hxy with ⟨_, _, habs⟩ | hxy
    · exact absurd habs (by decide)
    rw [hbT] at hxy
    rcases setCell_eq_cases _ _ _ _ _ _ _ hxy with ⟨h1, h2, _⟩ | hxy
    · exact ⟨h1, h2⟩
    rw [hbD] at hxy
    rcases setCell_eq_cases _ _ _ _ _ _ _ hxy with ⟨_, _, habs⟩ | hxy
    · exact absurd habs (by decide)
    rw [hbB] at hxy
    rcases setCell_eq_cases _ _ _ _ _ _ _ hxy with ⟨_, _, habs⟩ | hxy
    · exact absurd habs (by decide)
    rw [hbC2] at hxy
    rcases setCell_eq_cases _ _ _ _ _ _ _ hxy with ⟨_, _, habs⟩ | hxy
    · exact absurd habs (by decide)
    rw [hbC1] at hxy
    rcases setCell_eq_cases _ _ _ _ _ _ _ hxy with ⟨_, _, habs⟩ | hxy
    · exact absurd habs (by decide)
    rw [hbF] at hxy
    rcases setCell_eq_cases _ _ _ _ _ _ _ hxy with ⟨_, _, habs⟩ | hxy
    · exact absurd habs (by decide)
    exact absurd hxy (by decide)
  have classM : ∀ x y : Int, rM.1 x y = 'M' → x = rM.2.1 ∧ y = rM.2.2 := by
    intro x y hxy
    rw [hbM] at hxy
    rcases setCell_eq_cases _ _ _ _ _ _ _ hxy with ⟨h1, h2, _⟩ | hxy
    · exact ⟨h1, h2⟩
    rw [hbT] at hxy
    rcases setCell_eq_cases _ _ _ _ _ _ _ hxy with ⟨_, _, habs⟩ | hxy
    · exact absurd habs (by decide)
    rw [hbD] at hxy
    rcases setCell_eq_cases _ _ _ _ _ _ _ hxy with ⟨_, _, habs⟩ | hxy
    · exact absurd habs (by decide)
    rw [hbB] at hxy
    rcases setCell_eq_cases _ _ _ _ _ _ _ hxy with ⟨_, _, habs⟩ | hxy
    · exact absurd habs (by decide)
    rw [hbC2] at hxy
    rcases setCell_eq_cases _ _ _ _ _ _ _ hxy with ⟨_, _, habs⟩ | hxy
    · exact absurd habs (by decide)
    rw [hbC1] at hxy
    rcases setCell_eq_cases _ _ _ _ _ _ _ hxy with ⟨_, _, habs⟩ | hxy
    · exact absurd habs (by decide)
    rw [hbF] at hxy
    rcases setCell_eq_cases _ _ _ _ _ _ _ hxy with ⟨_, _, habs⟩ | hxy
    · exact absurd habs (by decide)
    exact absurd hxy (by decide)
  refine ⟨?_, ?_, ?_, ?_, ?_, ?_, ?_⟩
  · intro i
    fin_cases i <;> rfl
  · intro i
    fin_cases i <;> rfl
  · intro i
    fin_cases i
    · exact hrB
    · exact hrD
    · exact hrT
    · exact hrM
  · intro i
    fin_cases i
    · show rM.1 rB.2.1 rB.2.2 ≠ 'C'
      rw [persB4]; decide
    · show rM.1 rD.2.1 rD.2.2 ≠ 'C'
      rw [persD3]; decide
    · show rM.1 rT.2.1 rT.2.2 ≠ 'C'
      rw [persT2]; decide
    · show rM.1 rM.2.1 rM.2.2 ≠ 'C'
      rw [persM1]; decide
  · intro i x y hxy
    fin_cases i
    · exact ⟨rfl, classB x y hxy⟩
    · exact ⟨rfl, classD x y hxy⟩
    · exact ⟨rfl, classT x y hxy⟩
    · exact ⟨rfl, classM x y hxy⟩
  · intro _
    show (0 : Nat) < 100
    decide
  · show countC rM.1 + carryCount _ + 0 ≤ 2
    have c0 : countC (fun _ _ => '.') = 0 := by decide
    have cF : countC rF.1 = 0 := by
      rw [hbF, countC_setCell_of_ne _ _ _ _ (by decide) (by rw [hdF]; decide), c0]
    have cC1 : countC rC1.1 = 1 := by
      rw [hbC1, countC_setCell_C _ _ _ hrC1 (by rw [hdC1]; decide), cF]
    have cC2 : countC rC2.1 = 2 := by
      rw [hbC2, countC_setCell_C _ _ _ hrC2 (by rw [hdC2]; decide), cC1]
    have cB : countC rB.1 = 2 := by
      rw [hbB, countC_setCell_of_ne _ _ _ _ (by decide) (by rw [hdB]; decide), cC2]
    have cD : countC rD.1 = 2 := by
      rw [hbD, countC_setCell_of_ne _ _ _ _ (by decide) (by rw [hdD]; decide), cB]
    have cT : countC rT.1 = 2 := by
      rw [hbT, countC_setCell_of_ne _ _ _ _ (by decide) (by rw [hdT]; decide), cD]
    have cM : countC rM.1 = 2 := by
      rw [hbM, countC_setCell_of_ne _ _ _ _ (by decide) (by rw [hdM]; decide), cT]
    have ccar : carryCount (fun i : Fin 4 =>
        match i with
        | 0 => (⟨'B', rB.2.1, rB.2.2, false, true, 0⟩ : Character)
        | 1 => ⟨'D', rD.2.1, rD.2.2, false, true, 1⟩
        | 2 => ⟨'T', rT.2.1, rT.2.2, false, true, 2⟩
        | 3 => ⟨'M', rM.2.1, rM.2.2, false, true, 3⟩) = 0 := by
      simp [carryCount]
    rw [cM, ccar]

/-! ## Preservation of well-formedness -/

theorem charSymbols_facts :
    ∀ i : Fin 4, charSymbols i ≠ 'C' ∧ charSymbols i ≠ 'F' ∧ charSymbols i ≠ '.' := by
  decide

theorem charSymbols_inj : ∀ i j : Fin 4, charSymbols i = charSymbols j → i = j := by
  decide

theorem WF_movePhase (t : GameState) (m d : Fin 4) (hw : WF t)
    (halive : (t.characters m).alive = true) (hstep100 : t.step_count < 100) :
    WF (movePhase t m d) := by
  obtain ⟨hsym, hid, hrange, hnoC, htrack, _, hsum⟩ := hw
  have hsymC : (t.characters m).symbol ≠ 'C' := by
    rw [hsym m]; exact (charSymbols_facts m).1
  have hsymD : (t.characters m).symbol ≠ '.' := by
    rw [hsym m]; exact (charSymbols_facts m).2.2
  refine ⟨?_, ?_, ?_, ?_, ?_, ?_, ?_⟩
  · intro i
    rw [(movePhase_static t m d i).1]
    exact hsym i
  · intro i
    rw [(movePhase_static t m d i).2]
    exact hid i
  · intro i
    by_cases him : i = m
    · subst him
      rw [(movePhase_mover_pos t i d).1, (movePhase_mover_pos t i d).2]
      exact finalCell_inRange t i d (hrange i)
    · rw [(movePhase_pos_ne t m d i him).1, (movePhase_pos_ne t m d i him).2]
      exact hrange i
  · intro i
    by_cases him : i = m
    · subst him
      rw [(movePhase_mover_pos t i d).1, (movePhase_mover_pos t i d).2,
        movePhase_board_eq, setCell_self, hsym i]
      exact (charSymbols_facts i).1
    · rw [(movePhase_pos_ne t m d i him).1, (movePhase_pos_ne t m d i him).2]
      intro hC
      exact hnoC i (movePhase_pointwiseC t m d hsymC _ _ hC)
  · intro i x y hxy
    by_cases him : i = m
    · subst him
      rw [(movePhase_static t i d i).1] at hxy
      have hpos := movePhase_track_m t i d hsymD
        (fun u v hu => (htrack i u v hu).2) x y hxy
      refine ⟨?_, hpos⟩
      rw [movePhase_mover_alive t i d (hid i)]
      exact halive
    · rw [(movePhase_static t m d i).1] at hxy
      have hms : (t.characters i).symbol ≠ (t.characters m).symbol := by
        rw [hsym i, hsym m]
        intro he
        exact him (charSymbols_inj i m he)
      have hdot : (t.characters i).symbol ≠ '.' := by
        rw [hsym i]; exact (charSymbols_facts i).2.2
      exact movePhase_track_ne t m d i him hdot hms (htrack i) x y hxy
  · intro _
    exact hstep100
  · exact (movePhase_sum_le t m d (hid m) hsymC (hrange m)).trans hsum

theorem WF_mountain (u : GameState) (dr : List (Fin 5 × Fin 5)) (hw : WF u) :
    WF (move_mountain u dr) := by
  obtain ⟨hsym, hid, hrange, hnoC, htrack, hstep, hsum⟩ := hw
  have hch := move_mountain_characters u dr
  refine ⟨?_, ?_, ?_, ?_, ?_, ?_, ?_⟩
  · intro i
    rw [hch]
    exact hsym i
  · intro i
    rw [hch]
    exact hid i
  · intro i
    rw [hch]
    exact hrange i
  · intro i
    rw [hch]
    intro hC
    exact hnoC i (move_mountain_board_of_ne u dr _ _ 'C' (by decide) (by decide) hC)
  · intro i x y hxy
    rw [hch] at hxy ⊢
    have hF : (u.characters i).symbol ≠ 'F' := by
      rw [hsym i]; exact (charSymbols_facts i).2.1
    have hdot : (u.characters i).symbol ≠ '.' := by
      rw [hsym i]; exact (charSymbols_facts i).2.2
    exact htrack i x y (move_mountain_board_of_ne u dr x y _ hF hdot hxy)
  · intro hgo
    rw [move_mountain_step_count]
    rw [move_mountain_go] at hgo
    exact hstep hgo
  · unfold itemSum
    rw [hch, move_mountain_carrots]
    have := move_mountain_countC_le u dr
    unfold itemSum at hsum
    omega

theorem WF_step (s : GameState) (m d : Fin 4) (dr : List (Fin 5 × Fin 5)) (hw : WF s) :
    WF (step s m d dr) := by
  by_cases hg : (!(s.characters m).alive || s.game_over) = true
  · rw [step_of_guard s m d dr hg]
    exact hw
  · have hg2 : (s.characters m).alive = true ∧ s.game_over = false := by
      revert hg
      cases (s.characters m).alive <;> cases s.game_over <;> simp
    obtain ⟨hsym, hid, hrange, hnoC, htrack, hstep, hsum⟩ := hw
    by_cases hcap : 100 ≤ s.step_count + 1
    · rw [step_of_cap s m d dr hg2.1 hg2.2 hcap]
      obtain ⟨i, hi⟩ := firstAlive_isSome s.characters m hg2.1
      have hcs := capBranch_of_some (bumpCounters s) i hi
      refine ⟨?_, ?_, ?_, ?_, ?_, ?_, ?_⟩
      · intro j
        rw [(capBranch_static _).2.1]
        exact hsym j
      · intro j
        rw [(capBranch_static _).2.1]
        exact hid j
      · intro j
        rw [(capBranch_static _).2.1]
        exact hrange j
      · intro j
        rw [(capBranch_static _).2.1, (capBranch_static _).1]
        exact hnoC j
      · intro j x y hxy
        rw [(capBranch_static _).1, (capBranch_static _).2.1] at hxy
        rw [(capBranch_static _).2.1]
        exact htrack j x y hxy
      · intro habs
        rw [hcs] at habs
        simp at habs
      · rw [capBranch_itemSum]
        exact hsum
    · have hlt : s.step_count + 1 < 100 := by omega
      rw [step_of_move s m d dr hg2.1 hg2.2 hlt]
      have hwt : WF (bumpCounters s) :=
        ⟨hsym, hid, hrange, hnoC, htrack, fun _ => hlt, hsum⟩
      have hwmp : WF (movePhase (bumpCounters s) m d) :=
        WF_movePhase (bumpCounters s) m d hwt hg2.1 hlt
      split_ifs with htrig
      · exact WF_mountain _ dr hwmp
      · exact hwmp

theorem WF_reachable (s : GameState) (h : Reachable s) : WF s := by
  induction h with
  | base fD c1D c2D bD dD tD mD hinit => exact WF_init _ _ _ _ _ _ _ _ hinit
  | next m d dr _ ih => exact WF_step _ m d dr ih

theorem Reachable_StepsTo (s t : GameState) (hr : Reachable s) (hst : StepsTo s t) :
    Reachable t := by
  induction hst with
  | refl => exact hr
  | tail m d dr _ ih => exact Reachable.next m d dr ih

/-! ## Helper lemmas for the claim theorems -/

theorem bump_cand (s : GameState) (m d : Fin 4) :
    candTarget (bumpCounters s) m d = candTarget s m d := rfl

theorem bump_candCell (s : GameState) (m d : Fin 4) :
    candCell (bumpCounters s) m d = candCell s m d := rfl

theorem bump_elim (s : GameState) (m d : Fin 4) :
    elimPhase (bumpCounters s) m d = elimPhase s m d := rfl

theorem afterPickup_of_not (t : GameState) (m d : Fin 4) (h : ¬pickupCond t m d) :
    (afterPickup t m d).1 = (elimPhase t m d).1 := by
  unfold afterPickup
  rw [if_neg h]

theorem afterDeliver_of_not (t : GameState) (m d : Fin 4) (h : ¬deliverCond t m d) :
    (afterDeliver t m d).1 = (afterPickup t m d).1 := by
  unfold afterDeliver
  rw [if_neg h]

theorem afterDeliver_m_carrot_pos (t : GameState) (m d : Fin 4) (h : deliverCond t m d) :
    ((afterDeliver t m d).1 m).has_carrot = false := by
  unfold afterDeliver
  rw [if_pos h]
  simp [Function.update_same]

theorem movePhase_m_carrot (t : GameState) (m d : Fin 4) :
    ((movePhase t m d).characters m).has_carrot = ((afterDeliver t m d).1 m).has_carrot := by
  rw [movePhase_char_m]

theorem elimPhase_of_not_M (s : GameState) (m d : Fin 4)
    (h : (s.characters m).symbol ≠ 'M') :
    elimPhase s m d = (s.characters, clearedBoard s m, s.log) := by
  unfold elimPhase
  rw [if_neg h]

theorem step_move_chars (s : GameState) (m d : Fin 4) (dr : List (Fin 5 × Fin 5))
    (ha : (s.characters m).alive = true) (hg : s.game_over = false)
    (hlt : s.step_count + 1 < 100) :
    (step s m d dr).characters = (movePhase (bumpCounters s) m d).characters := by
  rw [step_of_move s m d dr ha hg hlt]
  split_ifs with htrig
  · exact move_mountain_characters _ dr
  · rfl

theorem step_move_placed (s : GameState) (m d : Fin 4) (dr : List (Fin 5 × Fin 5))
    (ha : (s.characters m).alive = true) (hg : s.game_over = false)
    (hlt : s.step_count + 1 < 100) :
    (step s m d dr).carrots_placed = (movePhase (bumpCounters s) m d).carrots_placed := by
  rw [step_of_move s m d dr ha hg hlt]
  split_ifs with htrig
  · exact move_mountain_carrots _ dr
  · rfl

theorem step_move_go (s : GameState) (m d : Fin 4) (dr : List (Fin 5 × Fin 5))
    (ha : (s.characters m).alive = true) (hg : s.game_over = false)
    (hlt : s.step_count + 1 < 100) :
    (step s m d dr).game_over = (movePhase (bumpCounters s) m d).game_over := by
  rw [step_of_move s m d dr ha hg hlt]
  split_ifs with htrig
  · exact move_mountain_go _ dr
  · rfl

theorem step_move_log_mono (s : GameState) (m d : Fin 4) (dr : List (Fin 5 × Fin 5))
    (ha : (s.characters m).alive = true) (hg : s.game_over = false)
    (hlt : s.step_count + 1 < 100) (e : Event)
    (he : e ∈ (movePhase (bumpCounters s) m d).log) : e ∈ (step s m d dr).log := by
  rw [step_of_move s m d dr ha hg hlt]
  split_ifs with htrig
  · exact move_mountain_log_mono _ dr e he
  · exact he

theorem step_move_board_of_ne (s : GameState) (m d : Fin 4) (dr : List (Fin 5 × Fin 5))
    (ha : (s.characters m).alive = true) (hg : s.game_over = false)
    (hlt : s.step_count + 1 < 100) (x y : Int) (c : Char) (hcF : c ≠ 'F') (hcd : c ≠ '.')
    (h : (step s m d dr).board x y = c) :
    (movePhase (bumpCounters s) m d).board x y = c := by
  rw [step_of_move s m d dr ha hg hlt] at h
  split_ifs at h with htrig
  · exact move_mountain_board_of_ne _ dr x y c hcF hcd h
  · exact h

theorem step_alive_le (s : GameState) (m d : Fin 4) (dr : List (Fin 5 × Fin 5)) (j : Fin 4)
    (h : ((step s m d dr).characters j).alive = true) : (s.characters j).alive = true := by
  by_cases hg : (!(s.characters m).alive || s.game_over) = true
  · rw [step_of_guard s m d dr hg] at h
    exact h
  · have hg2 : (s.characters m).alive = true ∧ s.game_over = false := by
      revert hg
      cases (s.characters m).alive <;> cases s.game_over <;> simp
    by_cases hcap : 100 ≤ s.step_count + 1
    · rw [step_of_cap s m d dr hg2.1 hg2.2 hcap] at h
      rw [(capBranch_static _).2.1] at h
      exact h
    · rw [step_move_chars s m d dr hg2.1 hg2.2 (by omega)] at h
      exact movePhase_alive_le _ m d j h

/-! ## Reachability of the concrete runs -/

theorem reach_s0A : Reachable s0A :=
  Reachable.base [(0, 0)] [(0, 4)] [(4, 0)] [(3, 3)] [(3, 4)] [(4, 3)] [(4, 4)] rfl

theorem reach_s1A : Reachable s1A := Reachable.next 0 0 [] reach_s0A

theorem reach_s0B : Reachable s0B :=
  Reachable.base [(0, 0)] [(1, 2)] [(1, 3)] [(1, 1)] [(4, 0)] [(4, 2)] [(4, 4)] rfl

theorem reach_s2B : Reachable s2B :=
  Reachable.next 0 0 [] (Reachable.next 0 0 [] reach_s0B)

theorem reach_s0C : Reachable s0C :=
  Reachable.base [(0, 0)] [(2, 3)] [(0, 4)] [(3, 3)] [(2, 2)] [(4, 0)] [(3, 4)] rfl

theorem reach_s2C : Reachable s2C :=
  Reachable.next 0 3 [] (Reachable.next 1 0 [] reach_s0C)

theorem reach_s6C : Reachable s6C :=
  Reachable.next 3 3 [(2, 3)] (Reachable.next 2 1 [] (Reachable.next 2 0 []
    (Reachable.next 0 3 [] reach_s2C)))

theorem reach_s7C : Reachable s7C := Reachable.next 3 1 [] reach_s6C

theorem reach_s8C : Reachable s8C := Reachable.next 2 0 [] reach_s7C

theorem reach_s2D : Reachable s2D :=
  Reachable.next 0 0 [] (Reachable.next 0 0 []
    (Reachable.base [(0, 0)] [(0, 4)] [(1, 4)] [(2, 2)] [(4, 4)] [(0, 2)] [(3, 3)] rfl))

theorem reach_s3D : Reachable s3D := Reachable.next 3 3 [(4, 2)] reach_s2D

/-! ## Claim C1 -/

/-- C1, counterexample: in the reachable state `s0A`, the non-privileged
actor B (symbol `'B'`, not `'M'`) moves right onto D's cell; afterwards
both B and D are alive and occupy the same cell (3,4) — the
single-occupancy invariant does not hold and is not enforced for
non-privileged movers. -/
theorem C1_counterexample :
    Reachable s1A ∧ (s0A.characters 0).symbol ≠ 'M' ∧
    (s1A.characters 0).alive = true ∧ (s1A.characters 1).alive = true ∧
    (s1A.characters 0).x = (s1A.characters 1).x ∧
    (s1A.characters 0).y = (s1A.characters 1).y :=
  ⟨reach_s1A, by decide, by decide, by decide, by decide, by decide⟩

/-- C1, amended: the item half of the invariant does hold — in every
reachable state, no actor occupies a cell marked with the item marker
`'C'` — but two live actors may come to share a cell (see the
counterexample), so the no-two-live-actors half is not an invariant. -/
theorem C1_amended_thm (s : GameState) (h : Reachable s) (i : Fin 4) :
    s.board (s.characters i).x (s.characters i).y ≠ 'C' :=
  (WF_reachable s h).2.2.2.1 i

theorem C1_amended_witness :
    s0A.board (s0A.characters 0).x (s0A.characters 0).y ≠ 'C' :=
  C1_amended_thm s0A reach_s0A 0

/-! ## Claim C2 -/

/-- C2, counterexample: the item sum (carrots on the grid + carrots
carried + carrots delivered) is 2 in the reachable initial state `s0B`
but only 1 two steps later: B picks up the carrot at (1,2) and then steps
onto the second carrot cell (1,3) while already carrying, overwriting the
`'C'` marker with its own symbol — the carrot is destroyed, so the sum is
not conserved. -/
theorem C2_counterexample :
    Reachable s2B ∧ itemSum s0B = 2 ∧ itemSum s2B = 1 :=
  ⟨reach_s2B, by decide, by decide⟩

/-- C2, amended: the item sum never exceeds its initial value 2: it is
non-increasing across the run (it strictly decreases when a carrying
actor steps onto an item cell, or when the privileged actor that already
carries an item captures a carrying occupant). -/
theorem C2_amended_thm (s : GameState) (h : Reachable s) : itemSum s ≤ 2 :=
  (WF_reachable s h).2.2.2.2.2.2

theorem C2_amended_witness : itemSum s2B ≤ 2 :=
  C2_amended_thm s2B reach_s2B

/-! ## Claim C5 -/

/-- C5: with the step cap `MAX_STEPS = 100`, the game-over flag is set by
iteration 100 at the latest: in every reachable state the global step
counter never exceeds 100 while the game is running, and a step that
raises the counter to 100 (or beyond) sets game-over and announces the
first living character (in array order) as the winner. -/
theorem C5_thm :
    (∀ s : GameState, Reachable s → s.game_over = false → s.step_count ≤ 100) ∧
    (∀ (s : GameState) (m d : Fin 4) (dr : List (Fin 5 × Fin 5)),
      (s.characters m).alive = true → s.game_over = false → 100 ≤ s.step_count + 1 →
      (step s m d dr).game_over = true ∧
      ∀ i : Fin 4, firstAlive s.characters = some i →
        Event.maxStepsWinner ((s.characters i).symbol) ∈ (step s m d dr).log) := by
  constructor
  · intro s hr hgo
    exact le_of_lt ((WF_reachable s hr).2.2.2.2.2.1 hgo)
  · intro s m d dr ha hg hcap
    rw [step_of_cap s m d dr ha hg hcap]
    obtain ⟨i, hi⟩ := firstAlive_isSome s.characters m ha
    have hcs := capBranch_of_some (bumpCounters s) i hi
    constructor
    · rw [hcs]
    · intro i2 hi2
      rw [hi] at hi2
      have : i = i2 := Option.some.inj hi2
      subst this
      rw [hcs]
      simp only [List.mem_append, List.mem_singleton]
      right
      rfl

theorem C5_witness :
    s0A.game_over = false ∧ s0A.step_count ≤ 100 ∧
    (wCap.characters 0).alive = true ∧ wCap.game_over = false ∧
    100 ≤ wCap.step_count + 1 ∧
    (step wCap 0 0 []).game_over = true ∧
    Event.maxStepsWinner ((wCap.characters 0).symbol) ∈ (step wCap 0 0 []).log :=
  ⟨by decide, C5_thm.1 s0A reach_s0A (by decide), by decide, by decide, by decide,
    (C5_thm.2 wCap 0 0 [] (by decide) (by decide) (by decide)).1,
    (C5_thm.2 wCap 0 0 [] (by decide) (by decide) (by decide)).2 0 (by decide)⟩

/-! ## Claim C8 -/

/-- C8: death is terminal.  If an actor is dead in a reachable state,
then after any further sequence of steps it is still dead and its symbol
appears nowhere on the board. -/
theorem C8_thm (s t : GameState) (j : Fin 4) (hr : Reachable s) (hst : StepsTo s t)
    (hdead : (s.characters j).alive = false) :
    (t.characters j).alive = false ∧
    ∀ x y : Int, t.board x y ≠ (s.characters j).symbol := by
  have hrt := Reachable_StepsTo s t hr hst
  have hdt : (t.characters j).alive = false := by
    clear hrt
    induction hst with
    | refl => exact hdead
    | tail m d dr hst ih =>
        cases halive : ((step _ m d dr).characters j).alive with
        | false => rfl
        | true => exact absurd (ih ▸ step_alive_le _ m d dr j halive) (by simp)
  refine ⟨hdt, ?_⟩
  intro x y hxy
  have hws := WF_reachable s hr
  have hwt := WF_reachable t hrt
  have hsymeq : (t.characters j).symbol = (s.characters j).symbol := by
    rw [hws.1 j, hwt.1 j]
  rw [← hsymeq] at hxy
  have := (hwt.2.2.2.2.1 j x y hxy).1
  rw [this] at hdt
  exact absurd hdt (by simp)

theorem C8_witness :
    (s7C.characters 1).alive = false ∧
    ((s8C.characters 1).alive = false ∧
      ∀ x y : Int, s8C.board x y ≠ (s7C.characters 1).symbol) :=
  ⟨by decide, C8_thm s7C s8C 1 reach_s7C (StepsTo.tail 2 0 [] (StepsTo.refl s7C)) (by decide)⟩

/-! ## Claim C10 -/

/-- C10: the precondition of `move_mountain` — that the board contains the
goal marker `'F'` — fails in a reachable state.  In `s8C` (reached after
Marvin delivered a carrot onto the goal cell, overwriting the `'F'`
marker), Marvin is alive, the game is running, the next cycle count 9 is
divisible by 3, so Marvin's next move runs `move_mountain`; but no cell
of the board holds `'F'`, and the mountain search of the move phase
returns the sentinel `(-1, -1)` — the C code then executes the
out-of-bounds write `board[-1][-1] = '.'` (undefined behavior). -/
theorem C10_bug :
    Reachable s8C ∧ (s8C.characters 3).alive = true ∧ s8C.game_over = false ∧
    s8C.step_count + 1 < 100 ∧ (s8C.cycle_count + 1) % 3 = 0 ∧
    (s8C.characters 3).symbol = 'M' ∧
    (∀ i : Fin 5, ∀ j : Fin 5, s8C.board (i.val : Int) (j.val : Int) ≠ 'F') ∧
    findF ((movePhase (bumpCounters s8C) 3 2).board) = (-1, -1) :=
  ⟨reach_s8C, by decide, by decide, by decide, by decide, by decide, by decide, by decide⟩

theorem afterDeliver_wins (t : GameState) (m d : Fin 4) (hdc : deliverCond t m d)
    (h2 : t.carrots_placed + 1 = 2) :
    Event.wins ((t.characters m).symbol) ∈ (afterDeliver t m d).2.2.2 := by
  unfold afterDeliver
  rw [if_pos hdc]
  simp [h2]

/-! ## Claim C3 -/

/-- C3, counterexample: in the reachable state `s6C`, Marvin stands at
(2,4) carrying nothing and the goal cell `'F'` is at (2,3), where the
living, carrot-carrying D also stands; Marvin's move left onto the goal
cell is NOT vetoed: Marvin steals D's carrot during the elimination
phase, passes the veto, and delivers — ending on the goal cell with the
delivered count incremented, although it began the move not carrying. -/
theorem C3_counterexample :
    Reachable s6C ∧ (s6C.characters 3).has_carrot = false ∧
    s6C.board 2 3 = 'F' ∧ candCell s6C 3 1 = (2, 3) ∧
    (s6C.characters 3).x = 2 ∧ (s6C.characters 3).y = 4 ∧
    (s7C.characters 3).x = 2 ∧ (s7C.characters 3).y = 3 ∧
    s7C.carrots_placed = s6C.carrots_placed + 1 :=
  ⟨reach_s6C, by decide, by decide, by decide, by decide, by decide, by decide,
    by decide, by decide⟩

/-- C3, amended: with the carrying flag evaluated at the goal check — that
is, after the privileged actor's theft phase; for a non-privileged actor
this equals the flag at the start of the move — a move whose candidate
cell is the goal behaves as claimed: not carrying ⇒ the move is vetoed,
the actor ends in its original cell and the delivered count is unchanged;
carrying ⇒ the move succeeds onto the candidate cell, the flag is cleared
and the delivered count increments by one. -/
theorem C3_amended_thm (s : GameState) (m d : Fin 4) (dr : List (Fin 5 × Fin 5))
    (ha : (s.characters m).alive = true) (hg : s.game_over = false)
    (hlt : s.step_count + 1 < 100) (htgt : candTarget s m d = 'F') :
    (((elimPhase s m d).1 m).has_carrot = false →
      ((step s m d dr).characters m).x = (s.characters m).x ∧
      ((step s m d dr).characters m).y = (s.characters m).y ∧
      (step s m d dr).carrots_placed = s.carrots_placed) ∧
    (((elimPhase s m d).1 m).has_carrot = true →
      ((step s m d dr).characters m).x = (candCell s m d).1 ∧
      ((step s m d dr).characters m).y = (candCell s m d).2 ∧
      ((step s m d dr).characters m).has_carrot = false ∧
      (step s m d dr).carrots_placed = s.carrots_placed + 1) := by
  have hchars := step_move_chars s m d dr ha hg hlt
  have hplaced := step_move_placed s m d dr ha hg hlt
  have htgt' : candTarget (bumpCounters s) m d = 'F' := by
    rw [bump_cand]; exact htgt
  have hp : ¬pickupCond (bumpCounters s) m d := by
    intro hp
    have h1 := hp.1
    rw [htgt'] at h1
    exact absurd h1 (by decide)
  have hAP : (afterPickup (bumpCounters s) m d).1 = (elimPhase (bumpCounters s) m d).1 :=
    afterPickup_of_not _ m d hp
  constructor
  · intro hcf
    have hcf' : ((elimPhase (bumpCounters s) m d).1 m).has_carrot = false := by
      rw [bump_elim]; exact hcf
    have hv : vetoCond (bumpCounters s) m d := ⟨htgt', hcf'⟩
    have hfc : finalCell (bumpCounters s) m d =
        (((bumpCounters s).characters m).x, ((bumpCounters s).characters m).y) := by
      unfold finalCell
      rw [if_pos hv]
    have hdc : ¬deliverCond (bumpCounters s) m d := by
      intro hdc
      have h2 := hdc.2
      rw [hAP, hcf'] at h2
      exact absurd h2 (by simp)
    refine ⟨?_, ?_, ?_⟩
    · rw [hchars, (movePhase_mover_pos _ m d).1, hfc]
      rfl
    · rw [hchars, (movePhase_mover_pos _ m d).2, hfc]
      rfl
    · rw [hplaced, movePhase_placed, if_neg hdc]
      exact Nat.add_zero _
  · intro hct
    have hct' : ((elimPhase (bumpCounters s) m d).1 m).has_carrot = true := by
      rw [bump_elim]; exact hct
    have hv : ¬vetoCond (bumpCounters s) m d := by
      intro hv
      have h2 := hv.2
      rw [hct'] at h2
      exact absurd h2 (by simp)
    have hfc : finalCell (bumpCounters s) m d = candCell (bumpCounters s) m d := by
      unfold finalCell
      rw [if_neg hv]
    have hdc : deliverCond (bumpCounters s) m d := by
      refine ⟨htgt', ?_⟩
      rw [hAP]
      exact hct'
    refine ⟨?_, ?_, ?_, ?_⟩
    · rw [hchars, (movePhase_mover_pos _ m d).1, hfc, bump_candCell]
    · rw [hchars, (movePhase_mover_pos _ m d).2, hfc, bump_candCell]
    · rw [hchars, movePhase_m_carrot, afterDeliver_m_carrot_pos _ m d hdc]
    · rw [hplaced, movePhase_placed, if_pos hdc]
      rfl

theorem C3_amended_witness :
    candTarget wGoal 0 0 = 'F' ∧ ((elimPhase wGoal 0 0).1 0).has_carrot = true ∧
    (((step wGoal 0 0 []).characters 0).x = (candCell wGoal 0 0).1 ∧
      ((step wGoal 0 0 []).characters 0).y = (candCell wGoal 0 0).2 ∧
      ((step wGoal 0 0 []).characters 0).has_carrot = false ∧
      (step wGoal 0 0 []).carrots_placed = wGoal.carrots_placed + 1) :=
  ⟨by decide, by decide,
    (C3_amended_thm wGoal 0 0 [] (by decide) (by decide) (by decide) (by decide)).2
      (by decide)⟩

/-! ## Claim C4 -/

/-- C4: a delivery increments the delivered count by one; when the new
count reaches the threshold `CARROTS = 2`, the game-over flag is set in
the same critical section and the delivering actor is announced as the
winner; a delivery below the threshold leaves game-over unset. -/
theorem C4_thm (s : GameState) (m d : Fin 4) (dr : List (Fin 5 × Fin 5))
    (ha : (s.characters m).alive = true) (hg : s.game_over = false)
    (hlt : s.step_count + 1 < 100) (htgt : candTarget s m d = 'F')
    (hcar : ((elimPhase s m d).1 m).has_carrot = true) :
    (step s m d dr).carrots_placed = s.carrots_placed + 1 ∧
    (s.carrots_placed + 1 = 2 →
      (step s m d dr).game_over = true ∧
      Event.wins ((s.characters m).symbol) ∈ (step s m d dr).log) ∧
    (s.carrots_placed + 1 < 2 → (step s m d dr).game_over = false) := by
  have hplaced := step_move_placed s m d dr ha hg hlt
  have hgo := step_move_go s m d dr ha hg hlt
  have htgt' : candTarget (bumpCounters s) m d = 'F' := by
    rw [bump_cand]; exact htgt
  have hp : ¬pickupCond (bumpCounters s) m d := by
    intro hp
    have h1 := hp.1
    rw [htgt'] at h1
    exact absurd h1 (by decide)
  have hAP : (afterPickup (bumpCounters s) m d).1 = (elimPhase (bumpCounters s) m d).1 :=
    afterPickup_of_not _ m d hp
  have hct' : ((elimPhase (bumpCounters s) m d).1 m).has_carrot = true := by
    rw [bump_elim]; exact hcar
  have hdc : deliverCond (bumpCounters s) m d := by
    refine ⟨htgt', ?_⟩
    rw [hAP]
    exact hct'
  refine ⟨?_, ?_, ?_⟩
  · rw [hplaced, movePhase_placed, if_pos hdc]
    rfl
  · intro h2
    constructor
    · rw [hgo, movePhase_go, if_pos ⟨hdc, h2⟩]
    · refine step_move_log_mono s m d dr ha hg hlt _ ?_
      show Event.wins _ ∈ (afterDeliver (bumpCounters s) m d).2.2.2
      exact afterDeliver_wins _ m d hdc h2
  · intro h2
    have hne : ¬(deliverCond (bumpCounters s) m d ∧
        (bumpCounters s).carrots_placed + 1 = 2) := by
      rintro ⟨_, hq⟩
      have hq2 : s.carrots_placed + 1 = 2 := hq
      omega
    rw [hgo, movePhase_go, if_neg hne]
    exact hg

theorem C4_witness :
    candTarget wGoal2 0 0 = 'F' ∧ ((elimPhase wGoal2 0 0).1 0).has_carrot = true ∧
    wGoal2.carrots_placed + 1 = 2 ∧
    (step wGoal2 0 0 []).carrots_placed = wGoal2.carrots_placed + 1 ∧
    (step wGoal2 0 0 []).game_over = true ∧
    Event.wins ((wGoal2.characters 0).symbol) ∈ (step wGoal2 0 0 []).log :=
  ⟨by decide, by decide, by decide,
    (C4_thm wGoal2 0 0 [] (by decide) (by decide) (by decide) (by decide) (by decide)).1,
    ((C4_thm wGoal2 0 0 [] (by decide) (by decide) (by decide) (by decide) (by decide)).2.1
      (by decide)).1,
    ((C4_thm wGoal2 0 0 [] (by decide) (by decide) (by decide) (by decide) (by decide)).2.1
      (by decide)).2⟩

/-! ## Claim C6 -/

theorem bump_cleared (s : GameState) (m : Fin 4) :
    clearedBoard (bumpCounters s) m = clearedBoard s m := rfl

/-- C6, counterexample: in run D the two first moves are B's; Marvin's
very first move is the third global cycle, and the mountain relocates on
it (from (0,0) to the sampled empty cell (4,2)), as the single
`mountainMoved` announcement of the run shows — the relocation is driven
by the global cycle counter, not by Marvin's own 3rd/6th/9th move. -/
theorem C6_counterexample :
    Reachable s3D ∧ s2D.log = [] ∧ s2D.board 0 0 = 'F' ∧
    s3D.log = [Event.mountainMoved 4 2] ∧ s3D.board 0 0 = '.' ∧ s3D.board 4 2 = 'F' :=
  ⟨reach_s3D, by decide, by decide, by decide, by decide, by decide⟩

/-- C6, amended: the goal relocation runs exactly on the moves where the
mover is the privileged actor AND the global cycle counter (incremented
once per move by every actor) is divisible by `CYCLES_PER_TIME_MACHINE =
3` after the increment — not on Marvin's own 3rd, 6th, 9th move; on such
a move the goal marker moves to the first sampled empty cell (rejection
sampling), and a relocation announcement is emitted; on any other move no
relocation announcement is emitted. -/
theorem C6_amended_thm (s : GameState) (m d : Fin 4) (dr : List (Fin 5 × Fin 5))
    (ha : (s.characters m).alive = true) (hg : s.game_over = false)
    (hlt : s.step_count + 1 < 100) :
    (mtnCount (step s m d dr).log = mtnCount s.log +
      (if ((s.cycle_count + 1) % 3 = 0 ∧ (s.characters m).symbol = 'M') ∧
          (dr.find? (fun p => (movePhase (bumpCounters s) m d).board
            (p.1.val : Int) (p.2.val : Int) = '.')).isSome = true
        then 1 else 0)) ∧
    (∀ p : Fin 5 × Fin 5,
      ((s.cycle_count + 1) % 3 = 0 ∧ (s.characters m).symbol = 'M') →
      dr.find? (fun q => (movePhase (bumpCounters s) m d).board
        (q.1.val : Int) (q.2.val : Int) = '.') = some p →
      (step s m d dr).board (p.1.val : Int) (p.2.val : Int) = 'F' ∧
      Event.mountainMoved (p.1.val : Int) (p.2.val : Int) ∈ (step s m d dr).log) := by
  rw [step_of_move s m d dr ha hg hlt]
  constructor
  · by_cases htrig : (s.cycle_count + 1) % 3 = 0 ∧ (s.characters m).symbol = 'M'
    · rw [if_pos htrig, move_mountain_log_mtn, movePhase_log_mtn]
      by_cases hfind : (dr.find? (fun p => (movePhase (bumpCounters s) m d).board
          (p.1.val : Int) (p.2.val : Int) = '.')).isSome = true
      · rw [if_pos hfind, if_pos ⟨htrig, hfind⟩]
        rfl
      · rw [if_neg hfind, if_neg (fun hq => hfind hq.2)]
        rfl
    · rw [if_neg htrig, movePhase_log_mtn, if_neg (fun hq => htrig hq.1)]
      rfl
  · intro p htrig hfind
    rw [if_pos htrig]
    exact move_mountain_success _ dr p hfind

theorem C6_amended_witness :
    (s2D.characters 3).alive = true ∧ s2D.game_over = false ∧
    (s2D.cycle_count + 1) % 3 = 0 ∧ (s2D.characters 3).symbol = 'M' ∧
    (step s2D 3 3 [(4, 2)]).board ((4 : Fin 5).val : Int) ((2 : Fin 5).val : Int) = 'F' ∧
    Event.mountainMoved ((4 : Fin 5).val : Int) ((2 : Fin 5).val : Int) ∈
      (step s2D 3 3 [(4, 2)]).log :=
  ⟨by decide, by decide, by decide, by decide,
    ((C6_amended_thm s2D 3 3 [(4, 2)] (by decide) (by decide) (by decide)).2
      ((4 : Fin 5), (2 : Fin 5)) (by decide) (by decide)).1,
    ((C6_amended_thm s2D 3 3 [(4, 2)] (by decide) (by decide) (by decide)).2
      ((4 : Fin 5), (2 : Fin 5)) (by decide) (by decide)).2⟩

/-! ## Claim C7 -/

/-- C7, counterexample: in the reachable state `s6C`, Marvin moves onto
the cell (2,3) occupied by the living, carrot-carrying D — but the cell
is also the goal cell, so the stolen carrot is immediately delivered in
the same atomic step: after the step Marvin's carrying flag is NOT set
(the claim asserts it becomes set whenever the occupant carried). -/
theorem C7_counterexample :
    Reachable s6C ∧ (s6C.characters 3).symbol = 'M' ∧
    (s6C.characters 1).alive = true ∧ (s6C.characters 1).has_carrot = true ∧
    (s6C.characters 1).x = (candCell s6C 3 1).1 ∧
    (s6C.characters 1).y = (candCell s6C 3 1).2 ∧
    (s7C.characters 1).alive = false ∧
    (s7C.characters 3).has_carrot = false :=
  ⟨reach_s6C, by decide, by decide, by decide, by decide, by decide, by decide, by decide⟩

/-- C7, amended: when the privileged actor Marvin moves onto a candidate
cell occupied by another living actor, in that single atomic step the
occupant dies, its carrying flag is cleared, its symbol disappears from
the whole grid, and a theft announcement is emitted if it carried an
item; the stolen item leaves Marvin's carrying flag set after the step
UNLESS the candidate cell is also goal-marked — in that case Marvin
delivers the stolen item inside the same step. -/
theorem C7_amended_thm (s : GameState) (m j d : Fin 4) (dr : List (Fin 5 × Fin 5))
    (ha : (s.characters m).alive = true) (hg : s.game_over = false)
    (hlt : s.step_count + 1 < 100)
    (hsymM : (s.characters m).symbol = 'M') (hcid : (s.characters m).id = m.val)
    (hjm : j ≠ m) (hjal : (s.characters j).alive = true)
    (hjx : (s.characters j).x = (candCell s m d).1)
    (hjy : (s.characters j).y = (candCell s m d).2)
    (hdM : (s.characters j).symbol ≠ 'M') (hdF : (s.characters j).symbol ≠ 'F')
    (hdot : (s.characters j).symbol ≠ '.')
    (huniq : ∀ x y : Int, s.board x y = (s.characters j).symbol →
      x = (s.characters j).x ∧ y = (s.characters j).y) :
    ((step s m d dr).characters j).alive = false ∧
    ((step s m d dr).characters j).has_carrot = false ∧
    ((s.characters j).has_carrot = true →
      Event.stole ((s.characters j).symbol) ∈ (step s m d dr).log ∧
      (candTarget s m d ≠ 'F' → ((step s m d dr).characters m).has_carrot = true)) ∧
    (∀ x y : Int, (step s m d dr).board x y ≠ (s.characters j).symbol) := by
  have hchars := step_move_chars s m d dr ha hg hlt
  have hproc := elimPhase_process (bumpCounters s) m d j hjm hsymM hcid hjal hjx hjy
  refine ⟨?_, ?_, ?_, ?_⟩
  · rw [hchars, movePhase_char_ne _ m d j hjm]
    exact hproc.1
  · rw [hchars, movePhase_char_ne _ m d j hjm]
    exact hproc.2.1
  · intro hcarj
    have h3 := hproc.2.2 hcarj
    constructor
    · refine step_move_log_mono s m d dr ha hg hlt _ ?_
      show Event.stole _ ∈ (afterDeliver (bumpCounters s) m d).2.2.2
      exact afterDeliver_log_mono _ m d _ (afterPickup_log_mono _ m d _ h3.1)
    · intro hnt
      have hp : ¬pickupCond (bumpCounters s) m d := by
        intro hp
        have h2 := hp.2
        rw [h3.2] at h2
        exact absurd h2 (by simp)
      have hAP : (afterPickup (bumpCounters s) m d).1 = (elimPhase (bumpCounters s) m d).1 :=
        afterPickup_of_not _ m d hp
      have hdc : ¬deliverCond (bumpCounters s) m d := by
        intro hdc
        have h1 : candTarget s m d = 'F' := hdc.1
        exact hnt h1
      have hAD : (afterDeliver (bumpCounters s) m d).1 = (afterPickup (bumpCounters s) m d).1 :=
        afterDeliver_of_not _ m d hdc
      rw [hchars, movePhase_m_carrot, hAD, hAP]
      exact h3.2
  · intro x y hxy
    have hmp := step_move_board_of_ne s m d dr ha hg hlt x y _ hdF hdot hxy
    rw [movePhase_board_eq] at hmp
    rcases setCell_eq_cases _ _ _ _ _ _ _ hmp with ⟨_, _, habs⟩ | hmp
    · exact hdM (habs.trans hsymM)
    · have hR : ∀ u v : Int, clearedBoard (bumpCounters s) m u v = (s.characters j).symbol →
          ((bumpCounters s).characters j).alive = true ∧
          u = ((bumpCounters s).characters j).x ∧ v = ((bumpCounters s).characters j).y := by
        intro u v hub
        have := huniq u v (clearedBoard_of_ne_dot (bumpCounters s) m u v _ hdot hub)
        exact ⟨hjal, this.1, this.2⟩
      have he := elimPhase_R (bumpCounters s) m d j hjm _ hdot hR x y hmp
      rw [hproc.1] at he
      exact absurd he.1 (by simp)

/-! ## Claim C9 -/

/-- C9, counterexample: in the reachable state `s2C`, B and D share the
cell (2,3), whose marker is `'B'`; D then moves away to (2,4), and its
old cell is NOT cleared — it still holds `'B'`, because the clear at line
142 is conditional on the old cell holding the mover's own symbol, not
unconditional. -/
theorem C9_counterexample :
    Reachable s2C ∧ (s2C.characters 1).symbol = 'D' ∧
    (s2C.characters 1).x = 2 ∧ (s2C.characters 1).y = 3 ∧
    s2C.board 2 3 = 'B' ∧
    ((step s2C 1 0 []).characters 1).x = 2 ∧ ((step s2C 1 0 []).characters 1).y = 4 ∧
    (step s2C 1 0 []).board 2 3 = 'B' :=
  ⟨reach_s2C, by decide, by decide, by decide, by decide, by decide, by decide, by decide⟩

/-- C9, amended: for a non-privileged mover that ends its move on a
different cell, the old cell is cleared IF AND ONLY IF it currently holds
the mover's own symbol: after the step the old cell holds `'.'` when it
held the mover's symbol, and is left untouched otherwise. -/
theorem C9_amended_thm (s : GameState) (m d : Fin 4) (dr : List (Fin 5 × Fin 5))
    (ha : (s.characters m).alive = true) (hg : s.game_over = false)
    (hlt : s.step_count + 1 < 100) (hnM : (s.characters m).symbol ≠ 'M')
    (hmoved : ((step s m d dr).characters m).x ≠ (s.characters m).x ∨
      ((step s m d dr).characters m).y ≠ (s.characters m).y) :
    (step s m d dr).board (s.characters m).x (s.characters m).y =
      (if s.board (s.characters m).x (s.characters m).y = (s.characters m).symbol
        then '.' else s.board (s.characters m).x (s.characters m).y) := by
  have hchars := step_move_chars s m d dr ha hg hlt
  have hstep : step s m d dr = movePhase (bumpCounters s) m d := by
    rw [step_of_move s m d dr ha hg hlt, if_neg (fun ht => hnM ht.2)]
  have hne : ¬((s.characters m).x = (finalCell (bumpCounters s) m d).1 ∧
      (s.characters m).y = (finalCell (bumpCounters s) m d).2) := by
    rintro ⟨e1, e2⟩
    rcases hmoved with hx | hy
    · rw [hchars, (movePhase_mover_pos _ m d).1] at hx
      exact hx e1.symm
    · rw [hchars, (movePhase_mover_pos _ m d).2] at hy
      exact hy e2.symm
  have helim : elimPhase (bumpCounters s) m d =
      ((bumpCounters s).characters, clearedBoard (bumpCounters s) m, (bumpCounters s).log) :=
    elimPhase_of_not_M _ m d hnM
  rw [hstep, movePhase_board_eq, helim]
  rw [setCell_ne _ _ _ _ _ _ hne, bump_cleared]
  unfold clearedBoard
  split_ifs with hcl
  · exact setCell_self _ _ _ _
  · rfl

theorem wElim_uniq : ∀ x y : Int, wElim.board x y = (wElim.characters 1).symbol →
    x = (wElim.characters 1).x ∧ y = (wElim.characters 1).y := by
  intro x y hxy
  have hxy' : setCell (setCell (setCell (fun _ _ => '.') 0 0 'F') 2 3 'D') 2 2 'M' x y =
      'D' := hxy
  rcases setCell_eq_cases _ _ _ _ _ _ _ hxy' with ⟨_, _, habs⟩ | hxy'
  · exact absurd habs (by decide)
  rcases setCell_eq_cases _ _ _ _ _ _ _ hxy' with ⟨h1, h2, _⟩ | hxy'
  · exact ⟨h1, h2⟩
  rcases setCell_eq_cases _ _ _ _ _ _ _ hxy' with ⟨_, _, habs⟩ | hxy'
  · exact absurd habs (by decide)
  · exact absurd hxy' (by decide)

theorem C7_amended_witness :
    (wElim.characters 3).symbol = 'M' ∧ (wElim.characters 1).alive = true ∧
    (wElim.characters 1).has_carrot = true ∧ candTarget wElim 3 0 ≠ 'F' ∧
    (((step wElim 3 0 []).characters 1).alive = false ∧
      ((step wElim 3 0 []).characters 1).has_carrot = false ∧
      Event.stole ((wElim.characters 1).symbol) ∈ (step wElim 3 0 []).log ∧
      ((step wElim 3 0 []).characters 3).has_carrot = true ∧
      (∀ x y : Int, (step wElim 3 0 []).board x y ≠ (wElim.characters 1).symbol)) := by
  have h := C7_amended_thm wElim 3 1 0 [] (by decide) (by decide) (by decide) (by decide)
    (by decide) (by decide) (by decide) (by decide) (by decide) (by decide) (by decide)
    (by decide) wElim_uniq
  exact ⟨by decide, by decide, by decide, by decide, h.1, h.2.1,
    (h.2.2.1 (by decide)).1, (h.2.2.1 (by decide)).2 (by decide), h.2.2.2⟩

theorem C9_amended_witness :
    wMove.board (wMove.characters 0).x (wMove.characters 0).y = (wMove.characters 0).symbol ∧
    ((step wMove 0 0 []).characters 0).y ≠ (wMove.characters 0).y ∧
    (step wMove 0 0 []).board (wMove.characters 0).x (wMove.characters 0).y =
      (if wMove.board (wMove.characters 0).x (wMove.characters 0).y = (wMove.characters 0).symbol
        then '.' else wMove.board (wMove.characters 0).x (wMove.characters 0).y) :=
  ⟨by decide, by decide,
    C9_amended_thm wMove 0 0 [] (by decide) (by decide) (by decide) (by decide)
      (Or.inr (by decide))⟩
